import Mathlib

/-!
Verification of the client-side activity/audit logging subsystem
(`src/lib/logger.ts`) of the lms-user repository.

The subsystem is modelled by a shallow embedding:

* JavaScript runtime values (the log records, which the source manipulates
  as plain objects) are modelled by the inductive type `JSValue`, with a
  dedicated `undef` constructor so that "a field explicitly set to
  `undefined`" is distinguishable from "no such field", exactly as in the
  source language.
* Each method of the `Logger` class becomes a pure Lean function.  Methods
  that touch instance state (`pendingLogs`, `isProcessingPendingLogs`,
  `currentPage`, `pageStartTime`) become explicit state transformers over
  `LoggerState` / `PageState`.
* The remote `addDoc` call and the client-info probe are external effects;
  their results are passed in as explicit oracle arguments
  (`WriteOutcome`, user-agent / IP strings).
* `localStorage` is modelled as an `Option String` cell, and the
  `JSON.stringify` / `JSON.parse` platform builtins are modelled by an
  executable printer/parser pair (`printVal` / `parseJson`) whose
  round-trip behaviour is proved, not assumed.
-/

namespace LmsLogger

/-- JavaScript runtime values, as manipulated by `logger.ts`.  `undef`
models the JavaScript value `undefined`; `null_` models `null`.  Numbers
are modelled as integers (every number handled by the logger is an
integer count, status code or millisecond timestamp). -/
inductive JSValue : Type where
  | undef : JSValue
  | null_ : JSValue
  | bool_ (b : Bool) : JSValue
  | num (n : Int) : JSValue
  | str (s : String) : JSValue
  | arr (xs : List JSValue) : JSValue
  | obj (fs : List (String × JSValue)) : JSValue

namespace JSValue

mutual

/-- Boolean equality on `JSValue` (written by hand because `deriving`
does not handle this nested inductive). -/
def beqVal : JSValue → JSValue → Bool
  | undef, undef => true
  | null_, null_ => true
  | bool_ a, bool_ b => a == b
  | num a, num b => a == b
  | str a, str b => a == b
  | arr xs, arr ys => beqList xs ys
  | obj fs, obj gs => beqFields fs gs
  | _, _ => false
termination_by a _ => sizeOf a

/-- Elementwise equality of value lists. -/
def beqList : List JSValue → List JSValue → Bool
  | [], [] => true
  | x :: xs, y :: ys => beqVal x y && beqList xs ys
  | _, _ => false
termination_by a _ => sizeOf a

/-- Elementwise equality of field lists. -/
def beqFields : List (String × JSValue) → List (String × JSValue) → Bool
  | [], [] => true
  | (k, v) :: fs, (l, w) :: gs => k == l && beqVal v w && beqFields fs gs
  | _, _ => false
termination_by a _ => sizeOf a

end

/-- Structurally motivated induction principle for `JSValue`, with the
inductive hypotheses for array elements and object field values supplied
via membership. -/
theorem inductionOn (P : JSValue → Prop)
    (h1 : P undef) (h2 : P null_) (h3 : ∀ b, P (bool_ b)) (h4 : ∀ n, P (num n))
    (h5 : ∀ s, P (str s))
    (h6 : ∀ xs, (∀ x ∈ xs, P x) → P (arr xs))
    (h7 : ∀ fs, (∀ p ∈ fs, P p.2) → P (obj fs)) : ∀ v, P v
  | undef => h1
  | null_ => h2
  | bool_ b => h3 b
  | num n => h4 n
  | str s => h5 s
  | arr xs => h6 xs (fun x hx => inductionOn P h1 h2 h3 h4 h5 h6 h7 x)
  | obj fs => h7 fs (fun p hp => inductionOn P h1 h2 h3 h4 h5 h6 h7 p.2)
termination_by v => sizeOf v
decreasing_by
  · have := List.sizeOf_lt_of_mem hx
    simp only [arr.sizeOf_spec]
    omega
  · have h := List.sizeOf_lt_of_mem hp
    have h2 : sizeOf p.2 < sizeOf p := by
      obtain ⟨a, b⟩ := p
      simp only [Prod.mk.sizeOf_spec]
      omega
    simp only [obj.sizeOf_spec]
    omega

theorem beqVal_refl : ∀ v : JSValue, beqVal v v = true := by
  intro v
  induction v using inductionOn with
  | h6 xs ih =>
    rw [beqVal]
    induction xs with
    | nil => rw [beqList]
    | cons x xs ihx =>
      have hx := ih x (by simp)
      have hxs := ihx (fun y hy => ih y (by simp [hy]))
      simp [beqList, hx, hxs]
  | h7 fs ih =>
    rw [beqVal]
    induction fs with
    | nil => rw [beqFields]
    | cons p fs ihp =>
      obtain ⟨k, v⟩ := p
      have hv := ih (k, v) (by simp)
      have hfs := ihp (fun q hq => ih q (by simp [hq]))
      simp [beqFields, hv, hfs]
  | _ => first | rfl | simp [beqVal]

theorem beqVal_sound : ∀ a b : JSValue, beqVal a b = true → a = b := by
  intro a
  induction a using inductionOn with
  | h1 => intro b h; cases b <;> simp_all [beqVal]
  | h2 => intro b h; cases b <;> simp_all [beqVal]
  | h3 x => intro b h; cases b <;> simp_all [beqVal]
  | h4 x => intro b h; cases b <;> simp_all [beqVal]
  | h5 x => intro b h; cases b <;> simp_all [beqVal]
  | h6 xs ih =>
    intro b h
    cases b with
    | arr ys =>
      rw [beqVal] at h
      congr 1
      have : ∀ (xs' : List JSValue), (∀ x ∈ xs', ∀ b, beqVal x b = true → x = b) →
          ∀ ys', beqList xs' ys' = true → xs' = ys' := by
        intro xs' hx
        induction xs' with
        | nil => intro ys' h'; cases ys' <;> simp_all [beqList]
        | cons x xs'' ihx =>
          intro ys' h'
          cases ys' with
          | nil => simp [beqList] at h'
          | cons y ys'' =>
            simp only [beqList, Bool.and_eq_true] at h'
            have e1 := hx x (by simp) y h'.1
            have e2 := ihx (fun z hz => hx z (by simp [hz])) ys'' h'.2
            rw [e1, e2]
      exact this xs ih ys h
    | undef => simp [beqVal] at h
    | null_ => simp [beqVal] at h
    | bool_ y => simp [beqVal] at h
    | num y => simp [beqVal] at h
    | str y => simp [beqVal] at h
    | obj gs => simp [beqVal] at h
  | h7 fs ih =>
    intro b h
    cases b with
    | obj gs =>
      rw [beqVal] at h
      congr 1
      have : ∀ (fs' : List (String × JSValue)),
          (∀ p ∈ fs', ∀ b, beqVal p.2 b = true → p.2 = b) →
          ∀ gs', beqFields fs' gs' = true → fs' = gs' := by
        intro fs' hf
        induction fs' with
        | nil => intro gs' h'; cases gs' <;> simp_all [beqFields]
        | cons p fs'' ihf =>
          intro gs' h'
          cases gs' with
          | nil => obtain ⟨k, v⟩ := p; simp [beqFields] at h'
          | cons q gs'' =>
            obtain ⟨k, v⟩ := p
            obtain ⟨l, w⟩ := q
            simp only [beqFields, Bool.and_eq_true] at h'
            have e1 : k = l := by
              have := h'.1.1; simpa using this
            have e2 := hf (k, v) (by simp) w h'.1.2
            have e3 := ihf (fun r hr => hf r (by simp [hr])) gs'' h'.2
            simp only at e2
            rw [e1, e2, e3]
      exact this fs ih gs h
    | undef => simp [beqVal] at h
    | null_ => simp [beqVal] at h
    | bool_ y => simp [beqVal] at h
    | num y => simp [beqVal] at h
    | str y => simp [beqVal] at h
    | arr ys => simp [beqVal] at h

instance : DecidableEq JSValue := fun a b =>
  if h : beqVal a b = true then
    isTrue (beqVal_sound a b h)
  else
    isFalse (fun he => h (he ▸ beqVal_refl a))

/-- JavaScript truthiness of a value (`if (x)`): `undefined`, `null`,
`false`, `0` and `""` are falsy, everything else (including every object
and array) is truthy. -/
def jsTruthy : JSValue → Bool
  | undef => false
  | null_ => false
  | bool_ b => b
  | num n => n ≠ 0
  | str s => s ≠ ""
  | arr _ => true
  | obj _ => true

/-- JavaScript `a || b`. -/
def jsOr (a b : JSValue) : JSValue := if a.jsTruthy then a else b

/-- Property read `o.k` on an object: the first binding of `k`, or
`undefined` when the key is missing or the value is not an object. -/
def getField : JSValue → String → JSValue
  | obj fs, k =>
    match fs.find? (fun p => p.1 = k) with
    | some p => p.2
    | none => undef
  | _, _ => undef

/-- Property write `o[k] = v` on a field list: replaces the value of an
existing binding in place, otherwise appends the new binding at the end —
the insertion-order semantics of JavaScript objects. -/
def setFieldList (fs : List (String × JSValue)) (k : String) (v : JSValue) :
    List (String × JSValue) :=
  if fs.any (fun p => p.1 = k) then
    fs.map (fun p => if p.1 = k then (k, v) else p)
  else fs ++ [(k, v)]

/-- Property write `o[k] = v` on an object value (identity on
non-objects, which never occurs in the modelled code). -/
def setField : JSValue → String → JSValue → JSValue
  | obj fs, k, v => obj (setFieldList fs k v)
  | o, _, _ => o

end JSValue

open JSValue

/-- An optional string (e.g. the TypeScript `string | undefined`
parameters) as a JavaScript value. -/
def optToJS : Option String → JSValue
  | none => JSValue.undef
  | some s => JSValue.str s

/-- An optional integer as a JavaScript value. -/
def optIntToJS : Option Int → JSValue
  | none => JSValue.undef
  | some n => JSValue.num n

/-- Truthiness of a `string | undefined` parameter: present and
non-empty. -/
def strTruthy : Option String → Bool
  | none => false
  | some s => s ≠ ""

/-- JavaScript `a || b` for a `string | undefined` value `a` falling back
to the plain string `b` (the `logUserId || userId` pattern of
`processPendingLogs`, logger.ts:243). -/
def strOrD (a : Option String) (b : String) : String :=
  match a with
  | some s => if s = "" then b else s
  | none => b

/-- Predicate `noUndef v` holds when `undefined` occurs nowhere inside `v` — the
fragment of `JSValue` that JSON serialization reproduces exactly. -/
def noUndef : JSValue → Bool
  | .undef => false
  | .null_ => true
  | .bool_ _ => true
  | .num _ => true
  | .str _ => true
  | .arr xs => xs.attach.all (fun x => noUndef x.val)
  | .obj fs => fs.attach.all (fun p => noUndef p.val.2)
termination_by v => sizeOf v
decreasing_by
  · have := List.sizeOf_lt_of_mem x.property
    simp only [JSValue.arr.sizeOf_spec]
    omega
  · have h := List.sizeOf_lt_of_mem p.property
    have h2 : sizeOf p.val.2 < sizeOf p.val := by
      obtain ⟨⟨a, b⟩, hab⟩ := p
      simp only [Prod.mk.sizeOf_spec]
      omega
    simp only [JSValue.obj.sizeOf_spec]
    omega

/-- The method `Logger.cleanUndefinedValues` (logger.ts:180-203), translated
branch-for-branch:

* `null` and `undefined` both return `null`;
* an array is `map`ped recursively and then `filter`ed for
  non-`undefined` elements (note that the recursive call has already
  turned each `undefined` element into `null`, so the filter removes
  nothing);
* an object keeps each field whose value is not `undefined`, recursively
  cleaned (with the source's second `!== undefined` guard on the cleaned
  value mirrored as well);
* every other scalar is returned unchanged.

The JavaScript loop writes into a fresh object with `cleaned[key] = ...`;
since `Object.entries` yields each key once, this is a `filterMap` over
the field list. -/
def cleanUndefinedValues : JSValue → JSValue
  | .undef => .null_
  | .null_ => .null_
  | .arr xs =>
      .arr (((xs.attach.map fun x => cleanUndefinedValues x.val).filter
        (fun item => item != .undef)))
  | .obj fs =>
      .obj (fs.attach.filterMap fun p =>
        if p.val.2 = .undef then none
        else
          let cleanedValue := cleanUndefinedValues p.val.2
          if cleanedValue = .undef then none else some (p.val.1, cleanedValue))
  | .bool_ b => .bool_ b
  | .num n => .num n
  | .str s => .str s
termination_by v => sizeOf v
decreasing_by
  · have := List.sizeOf_lt_of_mem x.property
    simp only [JSValue.arr.sizeOf_spec]
    omega
  · have h := List.sizeOf_lt_of_mem p.property
    have h2 : sizeOf p.val.2 < sizeOf p.val := by
      obtain ⟨⟨a, b⟩, hab⟩ := p
      simp only [Prod.mk.sizeOf_spec]
      omega
    simp only [JSValue.obj.sizeOf_spec]
    omega

/-- Display-string conversion used by the template literal
`` `users/${logData.userId}/logs` `` (logger.ts:283).  Only the `str`
case is ever exercised: the routing branch is guarded by the truthiness
of `logData.userId`, which the pipeline only ever sets to a string. -/
def jsDisplay : JSValue → String
  | .undef => "undefined"
  | .null_ => "null"
  | .bool_ b => if b then "true" else "false"
  | .num n => toString n
  | .str s => s
  | .arr _ => ""
  | .obj _ => ""

/-- The destination routing of `Logger.writeLog` (logger.ts:272-287):
given the record's `type` field and the stamped `logData.userId` value,
pick the collection path.  `===` on the type is JavaScript strict
equality, modelled by `JSValue` equality with the string literal. -/
def collectionPathFor (entryType logDataUserId : JSValue) : String :=
  if entryType = .str "login" ∨ entryType = .str "logout" then
    "authLogs"
  else if entryType = .str "system_error" ∨ entryType = .str "unauthorized_access" then
    "systemLogs"
  else if logDataUserId.jsTruthy then
    "users/" ++ jsDisplay logDataUserId ++ "/logs"
  else
    "systemLogs"

/-! ### Basic rewriting lemmas for the recursive definitions

`cleanUndefinedValues` and `noUndef` are defined by well-founded
recursion through `List.attach`; the lemmas below restate them in terms
of plain `List.map` / `List.filter` / `List.filterMap` / `List.all`, in
the shape the source code (`.map(...)`, `.filter(...)`, `Object.entries`
loop) actually has. -/

theorem attachFilterMapEq {α β : Type} (l : List α) (f : {x // x ∈ l} → Option β)
    (g : α → Option β) (h : ∀ i, f i = g i.val) :
    l.attach.filterMap f = l.filterMap g := by
  have hf : f = fun i => g i.val := funext h
  rw [hf]
  conv_rhs => rw [← List.attach_map_subtype_val l]
  rw [List.filterMap_map]
  rfl

theorem attachMapEq {α β : Type} (l : List α) (f : {x // x ∈ l} → β)
    (g : α → β) (h : ∀ i, f i = g i.val) :
    l.attach.map f = l.map g := by
  have hf : f = fun i => g i.val := funext h
  rw [hf]
  exact List.attach_map_val l g

theorem attachAllEq {α : Type} (l : List α) (f : {x // x ∈ l} → Bool)
    (g : α → Bool) (h : ∀ i, f i = g i.val) :
    l.attach.all f = l.all g := by
  rw [Bool.eq_iff_iff, List.all_eq_true, List.all_eq_true]
  constructor
  · intro hh x hx
    have := hh ⟨x, hx⟩ (List.mem_attach l _)
    rwa [h] at this
  · intro hh i _
    rw [h]
    exact hh i.val i.property

theorem noUndef_arr (xs : List JSValue) : noUndef (.arr xs) = xs.all noUndef := by
  rw [noUndef]
  exact attachAllEq _ _ _ (fun i => rfl)

theorem noUndef_obj (fs : List (String × JSValue)) :
    noUndef (.obj fs) = fs.all (fun p => noUndef p.2) := by
  rw [noUndef]
  exact attachAllEq _ _ _ (fun i => rfl)

theorem clean_arr (xs : List JSValue) :
    cleanUndefinedValues (.arr xs) =
      .arr ((xs.map cleanUndefinedValues).filter (fun i => i != .undef)) := by
  rw [cleanUndefinedValues]
  rw [attachMapEq _ _ cleanUndefinedValues (fun i => rfl)]

/-- The per-field body of the `Object.entries` loop of
`cleanUndefinedValues` (logger.ts:191-198). -/
def cleanField (p : String × JSValue) : Option (String × JSValue) :=
  if p.2 = .undef then none
  else
    let cleanedValue := cleanUndefinedValues p.2
    if cleanedValue = .undef then none else some (p.1, cleanedValue)

theorem clean_obj (fs : List (String × JSValue)) :
    cleanUndefinedValues (.obj fs) = .obj (fs.filterMap cleanField) := by
  rw [cleanUndefinedValues]
  exact congrArg JSValue.obj (attachFilterMapEq fs _ cleanField (fun i => rfl))

/-! ### Properties of the redaction filter (`cleanUndefinedValues`) -/

theorem noUndef_ne_undef {v : JSValue} (h : noUndef v = true) : v ≠ .undef := by
  intro he
  subst he
  rw [noUndef] at h
  exact Bool.false_ne_true h

/-- A `filterMap` by a function that is `some` on every element of the
list is the identity. -/
theorem filterMapIdOn {α : Type} (l : List α) (f : α → Option α)
    (h : ∀ a ∈ l, f a = some a) : l.filterMap f = l := by
  induction l with
  | nil => rfl
  | cons a l ih =>
    rw [List.filterMap_cons, h a (by simp)]
    rw [ih (fun b hb => h b (by simp [hb]))]

/-- The output of `cleanUndefinedValues` never contains `undefined`
anywhere: the remote store's "no absent-valued fields" requirement is
met. -/
theorem clean_noUndef : ∀ v, noUndef (cleanUndefinedValues v) = true := by
  intro v
  induction v using inductionOn with
  | h1 => rw [cleanUndefinedValues, noUndef]
  | h2 => rw [cleanUndefinedValues, noUndef]
  | h3 b => rw [cleanUndefinedValues, noUndef]
  | h4 n => rw [cleanUndefinedValues, noUndef]
  | h5 s => rw [cleanUndefinedValues, noUndef]
  | h6 xs ih =>
    rw [clean_arr, noUndef_arr, List.all_eq_true]
    intro i hi
    have hi2 := List.mem_of_mem_filter hi
    obtain ⟨x, hx, rfl⟩ := List.mem_map.mp hi2
    exact ih x hx
  | h7 fs ih =>
    rw [clean_obj, noUndef_obj, List.all_eq_true]
    intro p hp
    obtain ⟨q, hq, hfq⟩ := List.mem_filterMap.mp hp
    rw [cleanField] at hfq
    by_cases h1 : q.2 = JSValue.undef
    · simp [h1] at hfq
    · simp only [h1, if_false] at hfq
      by_cases h2 : cleanUndefinedValues q.2 = JSValue.undef
      · simp [h2] at hfq
      · simp only [h2, if_false, Option.some.injEq] at hfq
        have : p.2 = cleanUndefinedValues q.2 := by rw [← hfq]
        rw [this]
        exact ih q hq

/-- Cleaning is the identity: `cleanUndefinedValues` is the identity on values that contain no
`undefined`: all other fields and all explicit `null` values are
preserved unchanged. -/
theorem clean_of_noUndef : ∀ v, noUndef v = true → cleanUndefinedValues v = v := by
  intro v
  induction v using inductionOn with
  | h1 => intro h; rw [noUndef] at h; exact absurd h Bool.false_ne_true
  | h2 => intro h; rw [cleanUndefinedValues]
  | h3 b => intro h; rw [cleanUndefinedValues]
  | h4 n => intro h; rw [cleanUndefinedValues]
  | h5 s => intro h; rw [cleanUndefinedValues]
  | h6 xs ih =>
    intro h
    rw [noUndef_arr, List.all_eq_true] at h
    rw [clean_arr]
    congr 1
    have hmap : xs.map cleanUndefinedValues = xs := by
      have : xs.map cleanUndefinedValues = xs.map id :=
        List.map_congr_left (fun a ha => ih a ha (h a ha))
      rw [this, List.map_id]
    rw [hmap]
    apply List.filter_eq_self.mpr
    intro a ha
    have := noUndef_ne_undef (h a ha)
    simpa using this
  | h7 fs ih =>
    intro h
    rw [noUndef_obj, List.all_eq_true] at h
    rw [clean_obj]
    congr 1
    apply filterMapIdOn
    intro p hp
    rw [cleanField]
    have hne := noUndef_ne_undef (h p hp)
    simp only [hne, if_false]
    have hcl := ih p hp (h p hp)
    simp only [hcl, hne, if_false]

/-- Modelled from the spec: the RedactionFilter contract as the spec
words it (§4.3) — "every entry whose value is absent removed,
recursively, **including inside sequences** and nested mappings; `null`
preserved; a mapping with no remaining fields becomes an empty mapping".
This definition exists only to compare the spec's wording against the
implementation; `cleanUndefinedValues` above is the translation of the
source. -/
def cleanSpec : JSValue → JSValue
  | .undef => .null_
  | .null_ => .null_
  | .arr xs =>
      .arr ((xs.filter (fun x => x != .undef)).attach.map
        (fun x => cleanSpec x.val))
  | .obj fs =>
      .obj (fs.attach.filterMap fun p =>
        if p.val.2 = .undef then none else some (p.val.1, cleanSpec p.val.2))
  | .bool_ b => .bool_ b
  | .num n => .num n
  | .str s => .str s
termination_by v => sizeOf v
decreasing_by
  · have h1 := List.mem_of_mem_filter x.property
    have := List.sizeOf_lt_of_mem h1
    simp only [JSValue.arr.sizeOf_spec]
    omega
  · have h := List.sizeOf_lt_of_mem p.property
    have h2 : sizeOf p.val.2 < sizeOf p.val := by
      obtain ⟨⟨a, b⟩, hab⟩ := p
      simp only [Prod.mk.sizeOf_spec]
      omega
    simp only [JSValue.obj.sizeOf_spec]
    omega

theorem cleanSpec_arr (xs : List JSValue) :
    cleanSpec (.arr xs) = .arr ((xs.filter (fun x => x != .undef)).map cleanSpec) := by
  rw [cleanSpec]
  exact congrArg JSValue.arr (attachMapEq _ _ cleanSpec (fun i => rfl))

theorem cleanSpec_obj (fs : List (String × JSValue)) :
    cleanSpec (.obj fs) = .obj (fs.filterMap
      (fun p => if p.2 = .undef then none else some (p.1, cleanSpec p.2))) := by
  rw [cleanSpec]
  exact congrArg JSValue.obj (attachFilterMapEq fs _
    (fun p => if p.2 = .undef then none else some (p.1, cleanSpec p.2)) (fun i => rfl))

/-- Claim **C2** (amended).  `cleanUndefinedValues` removes absent-valued
entries of *mappings* recursively and its output never contains an
absent value anywhere, values free of absent entries (in particular all
explicit `null`s and all other fields) are preserved unchanged, and a
mapping whose fields are all removed becomes an empty mapping — but an
absent element of a *sequence* is replaced by an explicit `null` rather
than removed (the recursive `map` call has already turned it into `null`
before the `filter` runs, logger.ts:186). -/
theorem claim2_clean_amended :
    (∀ v, noUndef (cleanUndefinedValues v) = true) ∧
    (∀ v, noUndef v = true → cleanUndefinedValues v = v) ∧
    (∀ k fs, cleanUndefinedValues (.obj ((k, .undef) :: fs)) =
      cleanUndefinedValues (.obj fs)) ∧
    (∀ xs l, cleanUndefinedValues (.arr xs) = .arr l →
      cleanUndefinedValues (.arr (.undef :: xs)) = .arr (.null_ :: l)) ∧
    (∀ fs, (∀ p ∈ fs, p.2 = .undef) → cleanUndefinedValues (.obj fs) = .obj []) := by
  refine ⟨clean_noUndef, clean_of_noUndef, ?_, ?_, ?_⟩
  · intro k fs
    rw [clean_obj, clean_obj, List.filterMap_cons]
    have : cleanField (k, .undef) = none := by rw [cleanField]; simp
    rw [this]
  · intro xs l h
    rw [clean_arr] at h ⊢
    rw [List.map_cons]
    have h0 : cleanUndefinedValues .undef = .null_ := by rw [cleanUndefinedValues]
    rw [h0, List.filter_cons]
    have : ((JSValue.null_ != JSValue.undef) = true) := by simp
    simp only [this, if_true]
    injection h with h'
    rw [h']
  · intro fs h
    rw [clean_obj]
    congr 1
    apply List.filterMap_eq_nil_iff.mpr
    intro p hp
    rw [cleanField]
    simp [h p hp]

/-- Claim **C2** counterexample: the claim as stated requires absent entries
*inside sequences* to be removed; on `{a: [undefined, 1]}` the code
instead produces `{a: [null, 1]}`, while the spec-worded filter
(`cleanSpec`) produces `{a: [1]}`. -/
theorem claim2_counterexample :
    cleanUndefinedValues (.obj [("a", .arr [.undef, .num 1])]) =
      .obj [("a", .arr [.null_, .num 1])] ∧
    cleanSpec (.obj [("a", .arr [.undef, .num 1])]) =
      .obj [("a", .arr [.num 1])] ∧
    cleanUndefinedValues (.obj [("a", .arr [.undef, .num 1])]) ≠
      cleanSpec (.obj [("a", .arr [.undef, .num 1])]) := by
  have h0 : cleanUndefinedValues .undef = .null_ := by rw [cleanUndefinedValues]
  have h1 : cleanUndefinedValues (.num 1) = .num 1 := by rw [cleanUndefinedValues]
  have ha : cleanUndefinedValues (.arr [.undef, .num 1]) = .arr [.null_, .num 1] := by
    rw [clean_arr]
    simp [h0, h1]
  have hc : cleanUndefinedValues (.obj [("a", .arr [.undef, .num 1])]) =
      .obj [("a", .arr [.null_, .num 1])] := by
    rw [clean_obj]
    rw [List.filterMap_cons]
    have : cleanField ("a", .arr [.undef, .num 1]) = some ("a", .arr [.null_, .num 1]) := by
      rw [cleanField]
      simp [ha]
    rw [this]
    rfl
  have hs1 : cleanSpec (.num 1) = .num 1 := by rw [cleanSpec]
  have hsa : cleanSpec (.arr [.undef, .num 1]) = .arr [.num 1] := by
    rw [cleanSpec_arr]
    simp [hs1]
  have hs : cleanSpec (.obj [("a", .arr [.undef, .num 1])]) =
      .obj [("a", .arr [.num 1])] := by
    rw [cleanSpec_obj]
    simp [hsa]
  refine ⟨hc, hs, ?_⟩
  rw [hc, hs]
  simp

/-- Claim **C2** witness: the amended theorem applied at concrete inputs. -/
theorem claim2_witness :
    cleanUndefinedValues (.obj [("x", .null_), ("y", .num 2)]) =
      .obj [("x", .null_), ("y", .num 2)] ∧
    cleanUndefinedValues (.obj [("k", .undef)]) = .obj [] := by
  constructor
  · apply claim2_clean_amended.2.1
    rw [noUndef_obj]
    simp [noUndef]
  · apply claim2_clean_amended.2.2.2.2
    intro p hp
    simp only [List.mem_singleton] at hp
    rw [hp]

/-! ### Destination routing (claim C1) -/

/-- The acting-user identifier as resolved by the write pipeline
(logger.ts:268-270): the explicit `userId` argument wins when truthy,
else the record's own `userId` property.  When the result is truthy the
pipeline stores it in `logData.userId`; when it is falsy, the spread has
already left `logData.userId` equal to the record's own (falsy or
absent) value, which is exactly this same result — so the routing test
`if (logData.userId)` (logger.ts:281) always sees this resolved value. -/
def resolveUserId (userId : Option String) (logEntry : JSValue) : JSValue :=
  jsOr (optToJS userId) (logEntry.getField "userId")

/-- Claim **C1**: the destination routing of `writeLog` is a total function of
the record kind and the resolved acting-user identifier: `login`/`logout`
records go to `"authLogs"` whatever the identifier;
`system_error`/`unauthorized_access` records go to `"systemLogs"`
whatever the identifier; every other kind goes to
`"users/{userId}/logs"` for exactly the resolved identifier when one is
present (truthy), and to `"systemLogs"` when none is present. -/
theorem claim1_routing :
    ∀ (t : String) (userId : Option String) (logEntry : JSValue),
      ((t = "login" ∨ t = "logout") →
        collectionPathFor (.str t) (resolveUserId userId logEntry) = "authLogs") ∧
      ((t = "system_error" ∨ t = "unauthorized_access") →
        collectionPathFor (.str t) (resolveUserId userId logEntry) = "systemLogs") ∧
      (t ≠ "login" → t ≠ "logout" → t ≠ "system_error" → t ≠ "unauthorized_access" →
        (∀ s, resolveUserId userId logEntry = .str s → s ≠ "" →
          collectionPathFor (.str t) (resolveUserId userId logEntry) =
            "users/" ++ s ++ "/logs") ∧
        ((resolveUserId userId logEntry).jsTruthy = false →
          collectionPathFor (.str t) (resolveUserId userId logEntry) = "systemLogs")) := by
  intro t userId logEntry
  refine ⟨?_, ?_, ?_⟩
  · intro h
    rw [collectionPathFor, if_pos]
    rcases h with h | h
    · exact Or.inl (by rw [h])
    · exact Or.inr (by rw [h])
  · intro h
    rw [collectionPathFor, if_neg, if_pos]
    · rcases h with h | h
      · exact Or.inl (by rw [h])
      · exact Or.inr (by rw [h])
    · rintro (h1 | h1) <;> rcases h with h | h <;>
        (injection h1 with h2; rw [h] at h2; exact absurd h2 (by decide))
  · intro h1 h2 h3 h4
    have hn1 : ¬(JSValue.str t = .str "login" ∨ JSValue.str t = .str "logout") := by
      rintro (h | h) <;> (injection h with h5; contradiction)
    have hn2 : ¬(JSValue.str t = .str "system_error" ∨
        JSValue.str t = .str "unauthorized_access") := by
      rintro (h | h) <;> (injection h with h5; contradiction)
    constructor
    · intro s hs hne
      rw [collectionPathFor, if_neg hn1, if_neg hn2, if_pos]
      · rw [hs]
        rfl
      · rw [hs]
        simp [jsTruthy, hne]
    · intro hfal
      rw [collectionPathFor, if_neg hn1, if_neg hn2, if_neg]
      rw [hfal]
      exact Bool.false_ne_true

/-- Claim **C1** witness: the routing theorem applied at one concrete record
kind per case. -/
theorem claim1_witness :
    collectionPathFor (.str "login") (resolveUserId none (.obj [])) = "authLogs" ∧
    collectionPathFor (.str "system_error")
      (resolveUserId (some "u1") (.obj [])) = "systemLogs" ∧
    collectionPathFor (.str "page_view")
      (resolveUserId (some "u1") (.obj [])) = "users/" ++ "u1" ++ "/logs" ∧
    collectionPathFor (.str "page_view") (resolveUserId none (.obj [])) = "systemLogs" := by
  refine ⟨?_, ?_, ?_, ?_⟩
  · exact (claim1_routing "login" none (.obj [])).1 (Or.inl rfl)
  · exact (claim1_routing "system_error" (some "u1") (.obj [])).2.1 (Or.inl rfl)
  · exact ((claim1_routing "page_view" (some "u1") (.obj [])).2.2 (by decide) (by decide)
      (by decide) (by decide)).1 "u1" (by rfl) (by decide)
  · exact ((claim1_routing "page_view" none (.obj [])).2.2 (by decide) (by decide)
      (by decide) (by decide)).2 (by rfl)

/-! ### The log facade: one builder per entry point (logger.ts:318-621)

Each facade method builds a typed record object (modelled as a `JSValue`
object with the source's literal key order) and hands it, together with
its explicit user-identifier argument, to the write pipeline.  A facade
method is modelled as the list of write-pipeline invocations it
performs. -/

/-- One invocation of the write pipeline `writeLog(logEntry, userId)`:
the record and the explicit identifier argument. -/
structure WriteCall where
  logEntry : JSValue
  userId : Option String
deriving DecidableEq

instance : Inhabited WriteCall := ⟨⟨.undef, none⟩⟩

/-- The opaque `serverTimestamp()` placeholder that every builder stores
under `timestamp` (e.g. logger.ts:328).  Its concrete shape carries no
information — the stamping step of `writeLog` unconditionally replaces
the `timestamp` field (logger.ts:261) before anything is transmitted —
so it is modelled as a distinguished string value. -/
def serverTimestampPlaceholder : JSValue := .str "__serverTimestamp__"

/-- The method `Logger.logLogin` (logger.ts:319-331). -/
def logLogin (success : Bool) (email userId userRole errorMessage : Option String) :
    List WriteCall :=
  [⟨.obj [("type", .str "login"), ("success", .bool_ success), ("email", optToJS email),
      ("userId", optToJS userId), ("userRole", optToJS userRole),
      ("errorMessage", optToJS errorMessage), ("loginMethod", .str "email_password"),
      ("timestamp", serverTimestampPlaceholder)], userId⟩]

/-- The method `Logger.logLogout` (logger.ts:333-355).  `sessionStartTime` is the
instance field set to `Date.now()` at construction (logger.ts:152);
`now` is `Date.now()` at the call. -/
def logLogout (sessionStartTime now : Int) (userId : String) (userRole : Option String) :
    List WriteCall :=
  let sessionDuration : Int := now - sessionStartTime
  [⟨.obj [("type", .str "session_end"), ("userId", .str userId),
      ("userRole", optToJS userRole), ("sessionDuration", .num sessionDuration),
      ("timestamp", serverTimestampPlaceholder)], some userId⟩,
   ⟨.obj [("type", .str "logout"), ("success", .bool_ true), ("userId", .str userId),
      ("userRole", optToJS userRole),
      ("timestamp", serverTimestampPlaceholder)], some userId⟩]

/-- The method `Logger.logSessionStart` (logger.ts:358-367); the method itself is
guarded by the browser-environment check. -/
def logSessionStart (inBrowser : Bool) : List WriteCall :=
  if inBrowser then
    [⟨.obj [("type", .str "session_start"),
        ("timestamp", serverTimestampPlaceholder)], none⟩]
  else []

/-- The method `Logger.logUnauthorizedAccess` (logger.ts:370-385): the `userId`
field is attached only when the argument is truthy. -/
def logUnauthorizedAccess (targetPath attemptedAction denialReason : String)
    (userId : Option String) : List WriteCall :=
  let rec0 : JSValue := .obj [("type", .str "unauthorized_access"),
    ("targetPath", .str targetPath), ("attemptedAction", .str attemptedAction),
    ("denialReason", .str denialReason), ("timestamp", serverTimestampPlaceholder)]
  let rec1 := if strTruthy userId then rec0.setField "userId" (optToJS userId) else rec0
  [⟨rec1, userId⟩]

/-- The method `Logger.logSystemError` (logger.ts:388-408): each optional field is
attached only when its argument is truthy. -/
def logSystemError (errorMessage component : String)
    (userId stackTrace errorCode : Option String) : List WriteCall :=
  let rec0 : JSValue := .obj [("type", .str "system_error"),
    ("errorMessage", .str errorMessage), ("component", .str component),
    ("timestamp", serverTimestampPlaceholder)]
  let rec1 := if strTruthy userId then rec0.setField "userId" (optToJS userId) else rec0
  let rec2 := if strTruthy stackTrace then rec1.setField "stackTrace" (optToJS stackTrace)
    else rec1
  let rec3 := if strTruthy errorCode then rec2.setField "errorCode" (optToJS errorCode)
    else rec2
  [⟨rec3, userId⟩]

/-- The method `Logger.logApiRequest` (logger.ts:411-434): the `success` flag is
computed from the status code; `userId` is attached when truthy and
`payload` when not `undefined` (an explicit `!== undefined` check). -/
def logApiRequest (endpoint method : String) (responseTime statusCode : Int)
    (userId : Option String) (payload : JSValue) : List WriteCall :=
  let rec0 : JSValue := .obj [("type", .str "api_request"),
    ("endpoint", .str endpoint), ("method", .str method),
    ("responseTime", .num responseTime), ("statusCode", .num statusCode),
    ("success", .bool_ (decide (200 ≤ statusCode) && decide (statusCode < 300))),
    ("timestamp", serverTimestampPlaceholder)]
  let rec1 := if strTruthy userId then rec0.setField "userId" (optToJS userId) else rec0
  let rec2 := if payload = .undef then rec1 else rec1.setField "payload" payload
  [⟨rec2, userId⟩]

/-- The page-tracking instance state of the logger: `currentPage`
(initially `""`) and `pageStartTime` (initially `Date.now()`),
logger.ts:147-148. -/
structure PageState where
  currentPage : String
  pageStartTime : Int
deriving DecidableEq

/-- The method `Logger.logPageView` (logger.ts:437-469).  If a previous page is
tracked (both state fields truthy) and strictly more than 1000 ms have
elapsed since its entry, a trailing time-spent record for the previous
page is emitted first (note that the source reuses `currentPage` for
both the `pageName` and the `pageUrl` of that record); then the entry
record for the new page is emitted, and the tracked state is updated to
the new page and the current time. -/
def logPageView (ps : PageState) (now : Int) (pageName pageUrl userId : String)
    (referrer : Option String) : List WriteCall × PageState :=
  let timeSpent : Int := now - ps.pageStartTime
  let prev : List WriteCall :=
    if ps.currentPage ≠ "" ∧ ps.pageStartTime ≠ 0 then
      if timeSpent > 1000 then
        [⟨.obj [("type", .str "page_view"), ("pageName", .str ps.currentPage),
            ("pageUrl", .str ps.currentPage), ("timeSpent", .num timeSpent),
            ("userId", .str userId),
            ("timestamp", serverTimestampPlaceholder)], some userId⟩]
      else []
    else []
  let entry : WriteCall := ⟨.obj [("type", .str "page_view"),
    ("pageName", .str pageName), ("pageUrl", .str pageUrl),
    ("referrer", optToJS referrer), ("userId", .str userId),
    ("timestamp", serverTimestampPlaceholder)], some userId⟩
  (prev ++ [entry], ⟨pageName, now⟩)

/-- The method `Logger.logBookSearch` (logger.ts:472-496): the filters map keeps
`genre` / `availability` only when the argument is neither `undefined`
nor the sentinel `"all"` (explicit checks, not truthiness), and
`searchQuery` falls back to `""` when falsy.  The `genre` half of the
`cleanedFilters` object (logger.ts:479-482): -/
def genreFilterEntries (genre : Option String) : List (String × JSValue) :=
  match genre with
  | some g => if g = "all" then [] else [("genre", .str g)]
  | none => []

/-- The `availability` half of the `cleanedFilters` object
(logger.ts:483-485). -/
def availabilityFilterEntries (availability : Option String) : List (String × JSValue) :=
  match availability with
  | some a => if a = "all" then [] else [("availability", .str a)]
  | none => []

def logBookSearch (searchQuery : Option String) (genre availability : Option String)
    (resultsCount : Int) (userId : String) : List WriteCall :=
  [⟨.obj [("type", .str "book_search"), ("searchQuery", .str (strOrD searchQuery "")),
      ("filters", .obj (genreFilterEntries genre ++ availabilityFilterEntries availability)),
      ("resultsCount", .num resultsCount), ("userId", .str userId),
      ("timestamp", serverTimestampPlaceholder)], some userId⟩]

/-- The method `Logger.logFilterChange` (logger.ts:498-517). -/
def logFilterChange (sectionName filterType filterValue : String) (userId : String)
    (previousValue : Option String) (resultsCount : Option Int) : List WriteCall :=
  [⟨.obj [("type", .str "filter_change"), ("section", .str sectionName),
      ("filterType", .str filterType), ("filterValue", .str filterValue),
      ("previousValue", optToJS previousValue), ("resultsCount", optIntToJS resultsCount),
      ("userId", .str userId), ("timestamp", serverTimestampPlaceholder)], some userId⟩]

/-- The method `Logger.logBookView` (logger.ts:519-529). -/
def logBookView (bookId bookTitle : String) (userId : String) (source : Option String) :
    List WriteCall :=
  [⟨.obj [("type", .str "book_view"), ("bookId", .str bookId),
      ("bookTitle", .str bookTitle), ("source", optToJS source),
      ("userId", .str userId), ("timestamp", serverTimestampPlaceholder)], some userId⟩]

/-- The method `Logger.logBorrowRequest` (logger.ts:531-548). -/
def logBorrowRequest (bookId bookTitle requestStatus : String) (userId : String)
    (errorReason : Option String) : List WriteCall :=
  [⟨.obj [("type", .str "borrow_request"), ("bookId", .str bookId),
      ("bookTitle", .str bookTitle), ("requestStatus", .str requestStatus),
      ("errorReason", optToJS errorReason), ("userId", .str userId),
      ("timestamp", serverTimestampPlaceholder)], some userId⟩]

/-- The method `Logger.logReturnRequest` (logger.ts:550-571). -/
def logReturnRequest (bookId bookTitle originalBorrowingId : String) (isOverdue : Bool)
    (userId : String) (requestStatus : String) (daysPastDue : Option Int) :
    List WriteCall :=
  [⟨.obj [("type", .str "return_request"), ("bookId", .str bookId),
      ("bookTitle", .str bookTitle), ("originalBorrowingId", .str originalBorrowingId),
      ("isOverdue", .bool_ isOverdue), ("daysPastDue", optIntToJS daysPastDue),
      ("requestStatus", .str requestStatus), ("userId", .str userId),
      ("timestamp", serverTimestampPlaceholder)], some userId⟩]

/-- The method `Logger.logViewHistory` (logger.ts:573-581). -/
def logViewHistory (historyType : String) (userId : String) : List WriteCall :=
  [⟨.obj [("type", .str "view_history"), ("historyType", .str historyType),
      ("userId", .str userId), ("timestamp", serverTimestampPlaceholder)], some userId⟩]

/-- The method `Logger.logTabSwitch` (logger.ts:583-600). -/
def logTabSwitch (sectionName fromTab toTab : String) (userId : String)
    (timeSpentOnPreviousTab : Option Int) : List WriteCall :=
  [⟨.obj [("type", .str "tab_switch"), ("section", .str sectionName),
      ("fromTab", .str fromTab), ("toTab", .str toTab),
      ("timeSpentOnPreviousTab", optIntToJS timeSpentOnPreviousTab),
      ("userId", .str userId), ("timestamp", serverTimestampPlaceholder)], some userId⟩]

/-- The method `Logger.logUserInteraction` (logger.ts:602-621). -/
def logUserInteraction (action element : String) (sectionName : String) (userId : String)
    (elementId : Option String) (additionalData : JSValue) : List WriteCall :=
  [⟨.obj [("type", .str "user_interaction"), ("action", .str action),
      ("element", .str element), ("elementId", optToJS elementId),
      ("section", .str sectionName), ("additionalData", additionalData),
      ("userId", .str userId), ("timestamp", serverTimestampPlaceholder)], some userId⟩]

/-! ### Property-access lemmas for object records -/

theorem getField_obj_cons (k' : String) (v : JSValue) (fs : List (String × JSValue))
    (k : String) :
    JSValue.getField (.obj ((k', v) :: fs)) k =
      if k' = k then v else JSValue.getField (.obj fs) k := by
  by_cases h : k' = k <;> simp [JSValue.getField, List.find?_cons, h]

theorem getField_obj_map_update (fs : List (String × JSValue)) (k' : String) (v : JSValue)
    (k : String) (h : k' ≠ k) :
    JSValue.getField (.obj (fs.map (fun p => if p.1 = k' then (k', v) else p))) k =
      JSValue.getField (.obj fs) k := by
  induction fs with
  | nil => rfl
  | cons p fs ih =>
    obtain ⟨a, b⟩ := p
    rw [List.map_cons]
    by_cases ha : a = k'
    · simp only [ha, if_pos rfl]
      rw [getField_obj_cons, getField_obj_cons, if_neg h, if_neg (ha ▸ h), ih]
    · simp only [ha, if_false]
      rw [getField_obj_cons, getField_obj_cons, ih]

theorem getField_obj_append_single (fs : List (String × JSValue)) (k' : String)
    (v : JSValue) (k : String) (h : k' ≠ k) :
    JSValue.getField (.obj (fs ++ [(k', v)])) k = JSValue.getField (.obj fs) k := by
  induction fs with
  | nil =>
    simp [JSValue.getField, List.find?_cons, h]
  | cons p fs ih =>
    obtain ⟨a, b⟩ := p
    rw [List.cons_append, getField_obj_cons, getField_obj_cons, ih]

/-- Writing one key of an object leaves every other key's value
unchanged. -/
theorem getField_setField_ne (o : JSValue) (k' : String) (v : JSValue) (k : String)
    (h : k' ≠ k) : JSValue.getField (o.setField k' v) k = JSValue.getField o k := by
  cases o with
  | obj fs =>
    rw [JSValue.setField, JSValue.setFieldList]
    by_cases hmem : fs.any (fun p => p.1 = k')
    · rw [if_pos hmem]
      exact getField_obj_map_update fs k' v k h
    · rw [if_neg hmem]
      exact getField_obj_append_single fs k' v k h
  | undef => rfl
  | null_ => rfl
  | bool_ b => rfl
  | num n => rfl
  | str s => rfl
  | arr xs => rfl

/-! ### Claim C3: the trailing previous-page record of `logPageView` -/

/-- Claim **C3** (amended).  When a previous page is tracked (both state
fields truthy) and *strictly more* than 1000 ms elapsed since it was
entered, `logPageView` emits exactly one trailing time-spent record for
the previous page (carrying the elapsed time) before the new page's
entry record; when 1000 ms or less elapsed it emits only the entry
record; in both cases the tracked page and its entry timestamp are
updated to the new page and the current time.  (The claim's "at least
1000 ms" is wrong at the boundary: the source test is
`timeSpent > 1000`, logger.ts:442.) -/
theorem claim3_page_view_amended :
    ∀ (ps : PageState) (now : Int) (pageName pageUrl userId : String)
      (referrer : Option String),
      (ps.currentPage ≠ "" → ps.pageStartTime ≠ 0 → now - ps.pageStartTime > 1000 →
        (logPageView ps now pageName pageUrl userId referrer).1 =
          [⟨.obj [("type", .str "page_view"), ("pageName", .str ps.currentPage),
              ("pageUrl", .str ps.currentPage),
              ("timeSpent", .num (now - ps.pageStartTime)),
              ("userId", .str userId), ("timestamp", serverTimestampPlaceholder)],
            some userId⟩,
           ⟨.obj [("type", .str "page_view"), ("pageName", .str pageName),
              ("pageUrl", .str pageUrl), ("referrer", optToJS referrer),
              ("userId", .str userId), ("timestamp", serverTimestampPlaceholder)],
            some userId⟩]) ∧
      (ps.currentPage ≠ "" → ps.pageStartTime ≠ 0 → now - ps.pageStartTime ≤ 1000 →
        (logPageView ps now pageName pageUrl userId referrer).1 =
          [⟨.obj [("type", .str "page_view"), ("pageName", .str pageName),
              ("pageUrl", .str pageUrl), ("referrer", optToJS referrer),
              ("userId", .str userId), ("timestamp", serverTimestampPlaceholder)],
            some userId⟩]) ∧
      ((logPageView ps now pageName pageUrl userId referrer).2 = ⟨pageName, now⟩) := by
  intro ps now pageName pageUrl userId referrer
  refine ⟨?_, ?_, rfl⟩
  · intro h1 h2 h3
    rw [logPageView]
    simp only [if_pos (And.intro h1 h2), if_pos h3]
    rfl
  · intro h1 h2 h3
    rw [logPageView]
    have : ¬(now - ps.pageStartTime > 1000) := by omega
    simp only [if_pos (And.intro h1 h2), if_neg this]
    rfl

/-- Claim **C3** counterexample: with the previous page entered at t=4 and the
second call at t=1004, exactly 1000 ms ("at least 1000 ms") have
elapsed, yet no trailing time-spent record is emitted — only the new
page's entry record is sent. -/
theorem claim3_counterexample :
    (logPageView ⟨"Dashboard", 4⟩ 1004 "Books" "/books" "user-1" none).1 =
      [⟨.obj [("type", .str "page_view"), ("pageName", .str "Books"),
          ("pageUrl", .str "/books"), ("referrer", .undef),
          ("userId", .str "user-1"), ("timestamp", serverTimestampPlaceholder)],
        some "user-1"⟩] ∧
    (1004 : Int) - 4 ≥ 1000 := by
  constructor
  · rw [logPageView]
    norm_num
    rfl
  · norm_num

/-- Claim **C3** witness: the amended theorem applied at a concrete state with
1500 ms elapsed (trailing record emitted) and at one with 500 ms elapsed
(trailing record suppressed). -/
theorem claim3_witness :
    (logPageView ⟨"Home", 4⟩ 1504 "Books" "/books" "u" none).1 =
      [⟨.obj [("type", .str "page_view"), ("pageName", .str "Home"),
          ("pageUrl", .str "Home"), ("timeSpent", .num 1500),
          ("userId", .str "u"), ("timestamp", serverTimestampPlaceholder)],
        some "u"⟩,
       ⟨.obj [("type", .str "page_view"), ("pageName", .str "Books"),
          ("pageUrl", .str "/books"), ("referrer", .undef),
          ("userId", .str "u"), ("timestamp", serverTimestampPlaceholder)],
        some "u"⟩] ∧
    (logPageView ⟨"Home", 4⟩ 504 "Books" "/books" "u" none).1 =
      [⟨.obj [("type", .str "page_view"), ("pageName", .str "Books"),
          ("pageUrl", .str "/books"), ("referrer", .undef),
          ("userId", .str "u"), ("timestamp", serverTimestampPlaceholder)],
        some "u"⟩] := by
  constructor
  · have h := (claim3_page_view_amended ⟨"Home", 4⟩ 1504 "Books" "/books" "u" none).1
      (by simp) (by norm_num) (by norm_num)
    simpa using h
  · have h := (claim3_page_view_amended ⟨"Home", 4⟩ 504 "Books" "/books" "u" none).2.1
      (by simp) (by norm_num) (by norm_num)
    simpa using h

/-! ### Claim C8: emission counts of the facade entry points -/

/-- Claim **C8**: `logLogout` emits exactly two records sequentially — first a
session-end record whose `sessionDuration` is the time elapsed since the
session start timestamp recorded at initialization, then a logout record
with `success = true`, both carrying the given `userId` (in the record
and as the pipeline argument) — while every other facade entry point
invokes the write pipeline exactly once (`logSessionStart` in a browser
context; `logPageView` may add the one extra trailing record). -/
theorem claim8_emission_counts :
    (∀ (sessionStartTime now : Int) (userId : String) (userRole : Option String),
      logLogout sessionStartTime now userId userRole =
        [⟨.obj [("type", .str "session_end"), ("userId", .str userId),
            ("userRole", optToJS userRole),
            ("sessionDuration", .num (now - sessionStartTime)),
            ("timestamp", serverTimestampPlaceholder)], some userId⟩,
         ⟨.obj [("type", .str "logout"), ("success", .bool_ true),
            ("userId", .str userId), ("userRole", optToJS userRole),
            ("timestamp", serverTimestampPlaceholder)], some userId⟩]) ∧
    (∀ success email userId userRole errorMessage,
      (logLogin success email userId userRole errorMessage).length = 1) ∧
    (logSessionStart true).length = 1 ∧
    (∀ targetPath attemptedAction denialReason userId,
      (logUnauthorizedAccess targetPath attemptedAction denialReason userId).length = 1) ∧
    (∀ errorMessage component userId stackTrace errorCode,
      (logSystemError errorMessage component userId stackTrace errorCode).length = 1) ∧
    (∀ endpoint method responseTime statusCode userId payload,
      (logApiRequest endpoint method responseTime statusCode userId payload).length = 1) ∧
    (∀ searchQuery genre availability resultsCount userId,
      (logBookSearch searchQuery genre availability resultsCount userId).length = 1) ∧
    (∀ sectionName filterType filterValue userId previousValue resultsCount,
      (logFilterChange sectionName filterType filterValue userId previousValue
        resultsCount).length = 1) ∧
    (∀ bookId bookTitle userId source,
      (logBookView bookId bookTitle userId source).length = 1) ∧
    (∀ bookId bookTitle requestStatus userId errorReason,
      (logBorrowRequest bookId bookTitle requestStatus userId errorReason).length = 1) ∧
    (∀ bookId bookTitle originalBorrowingId isOverdue userId requestStatus daysPastDue,
      (logReturnRequest bookId bookTitle originalBorrowingId isOverdue userId
        requestStatus daysPastDue).length = 1) ∧
    (∀ historyType userId, (logViewHistory historyType userId).length = 1) ∧
    (∀ sectionName fromTab toTab userId timeSpentOnPreviousTab,
      (logTabSwitch sectionName fromTab toTab userId timeSpentOnPreviousTab).length = 1) ∧
    (∀ action element sectionName userId elementId additionalData,
      (logUserInteraction action element sectionName userId elementId
        additionalData).length = 1) ∧
    (∀ ps now pageName pageUrl userId referrer,
      (logPageView ps now pageName pageUrl userId referrer).1.length = 1 ∨
      (logPageView ps now pageName pageUrl userId referrer).1.length = 2) := by
  refine ⟨fun _ _ _ _ => rfl, fun _ _ _ _ _ => rfl, rfl, fun _ _ _ _ => rfl,
    fun _ _ _ _ _ => rfl, fun _ _ _ _ _ _ => rfl, fun _ _ _ _ _ => rfl,
    fun _ _ _ _ _ _ => rfl, fun _ _ _ _ => rfl, fun _ _ _ _ _ => rfl,
    fun _ _ _ _ _ _ _ => rfl, fun _ _ => rfl, fun _ _ _ _ _ => rfl,
    fun _ _ _ _ _ _ => rfl, ?_⟩
  intro ps now pageName pageUrl userId referrer
  rw [logPageView]
  by_cases h1 : ps.currentPage ≠ "" ∧ ps.pageStartTime ≠ 0
  · by_cases h2 : now - ps.pageStartTime > 1000
    · right
      simp [h1, h2]
    · left
      simp [h1, h2]
  · left
    simp [h1]

/-! ### Claim C9: the derived `success` flag of `logApiRequest` -/

/-- Claim **C9**: the `success` field of every record emitted by
`logApiRequest` is computed from the `statusCode` argument as
`200 ≤ statusCode < 300` (logger.ts:425); the facade has no success
parameter, so the flag can never come from the caller. -/
theorem claim9_api_success :
    ∀ (endpoint method : String) (responseTime statusCode : Int)
      (userId : Option String) (payload : JSValue),
      ∀ c ∈ logApiRequest endpoint method responseTime statusCode userId payload,
        c.logEntry.getField "success" =
          .bool_ (decide (200 ≤ statusCode ∧ statusCode < 300)) := by
  intro endpoint method responseTime statusCode userId payload c hc
  rw [logApiRequest, List.mem_singleton] at hc
  subst hc
  simp only
  have hval : ∀ o : JSValue,
      (if payload = JSValue.undef then o else o.setField "payload" payload).getField
        "success" = o.getField "success" := by
    intro o
    by_cases hp : payload = JSValue.undef
    · rw [if_pos hp]
    · rw [if_neg hp, getField_setField_ne _ _ _ _ (by simp)]
  rw [hval]
  have huid : ∀ o : JSValue,
      (if strTruthy userId then o.setField "userId" (optToJS userId) else o).getField
        "success" = o.getField "success" := by
    intro o
    by_cases hu : strTruthy userId
    · rw [if_pos hu, getField_setField_ne _ _ _ _ (by simp)]
    · rw [if_neg hu]
  rw [huid]
  simp only [getField_obj_cons]
  simp

/-- Claim **C9** witness: a 204 response is a success, a 404 response is
not. -/
theorem claim9_witness :
    ((logApiRequest "/api/books" "GET" 12 204 (some "u1") .undef).headI.logEntry.getField
      "success" = .bool_ true) ∧
    ((logApiRequest "/api/books" "GET" 12 404 none .undef).headI.logEntry.getField
      "success" = .bool_ false) := by
  constructor
  · have h := claim9_api_success "/api/books" "GET" 12 204 (some "u1") .undef
      (logApiRequest "/api/books" "GET" 12 204 (some "u1") .undef).headI (by simp [logApiRequest])
    simpa using h
  · have h := claim9_api_success "/api/books" "GET" 12 404 none .undef
      (logApiRequest "/api/books" "GET" 12 404 none .undef).headI (by simp [logApiRequest])
    simpa using h

/-! ### Claim C10: the cleaned filters and search query of `logBookSearch` -/

/-- Claim **C10**: the `filters` mapping of every record emitted by
`logBookSearch` omits the `genre` entry exactly when the given genre is
absent or the sentinel `"all"` (and likewise for `availability`), and
the record's `searchQuery` is `""` whenever the given argument is falsy
(absent or empty). -/
theorem claim10_book_search :
    ∀ (searchQuery genre availability : Option String) (resultsCount : Int)
      (userId : String),
      ∀ c ∈ logBookSearch searchQuery genre availability resultsCount userId,
        ∃ fsf : List (String × JSValue),
          c.logEntry.getField "filters" = .obj fsf ∧
          (fsf.any (fun p => p.1 = "genre") = true ↔ ∃ g, genre = some g ∧ g ≠ "all") ∧
          (∀ g, genre = some g → g ≠ "all" → ("genre", .str g) ∈ fsf) ∧
          (fsf.any (fun p => p.1 = "availability") = true ↔
            ∃ a, availability = some a ∧ a ≠ "all") ∧
          (∀ a, availability = some a → a ≠ "all" → ("availability", .str a) ∈ fsf) ∧
          ((searchQuery = none ∨ searchQuery = some "") →
            c.logEntry.getField "searchQuery" = .str "") ∧
          (∀ q, searchQuery = some q → q ≠ "" →
            c.logEntry.getField "searchQuery" = .str q) := by
  intro searchQuery genre availability resultsCount userId c hc
  rw [logBookSearch, List.mem_singleton] at hc
  subst hc
  simp only
  refine ⟨genreFilterEntries genre ++ availabilityFilterEntries availability,
    by simp [getField_obj_cons], ?_, ?_, ?_, ?_, ?_, ?_⟩
  · rcases genre with _ | g
    · simp [genreFilterEntries, availabilityFilterEntries]
      rcases availability with _ | a
      · simp
      · by_cases ha : a = "all" <;> simp [ha]
    · by_cases hg : g = "all" <;>
        simp [hg, genreFilterEntries, availabilityFilterEntries] <;>
        rcases availability with _ | a <;>
        first
          | simp
          | (by_cases ha : a = "all" <;> simp [ha])
  · intro g hg hne
    subst hg
    simp [genreFilterEntries, hne]
  · rcases availability with _ | a
    · simp [availabilityFilterEntries]
      rcases genre with _ | g
      · simp [genreFilterEntries]
      · by_cases hg : g = "all" <;> simp [hg, genreFilterEntries]
    · by_cases ha : a = "all" <;>
        simp [ha, availabilityFilterEntries] <;>
        rcases genre with _ | g <;>
        first
          | simp [genreFilterEntries]
          | (by_cases hg : g = "all" <;> simp [hg, genreFilterEntries])
  · intro a ha hne
    subst ha
    simp [availabilityFilterEntries, hne]
  · intro hq
    rcases hq with hq | hq <;> (subst hq; simp [getField_obj_cons, strOrD])
  · intro q hq hne
    subst hq
    simp [getField_obj_cons, strOrD, hne]

/-- Claim **C10** witness: concrete calls with genre `"all"` (omitted), a real
genre (kept), and an empty search query (defaulted). -/
theorem claim10_witness :
    (∃ fsf : List (String × JSValue),
      ((logBookSearch (some "") (some "all") (some "available") 3 "u1").headI.logEntry).getField
        "filters" = .obj fsf ∧
      fsf.any (fun p => p.1 = "genre") = false ∧
      ("availability", .str "available") ∈ fsf) ∧
    ((logBookSearch (some "") (some "all") (some "available") 3 "u1").headI.logEntry).getField
      "searchQuery" = .str "" := by
  have h := claim10_book_search (some "") (some "all") (some "available") 3 "u1"
    (logBookSearch (some "") (some "all") (some "available") 3 "u1").headI
    (by simp [logBookSearch])
  obtain ⟨fsf, h1, h2, h3, h4, h5, h6, h7⟩ := h
  refine ⟨⟨fsf, h1, ?_, h5 "available" rfl (by simp)⟩, h6 (Or.inr rfl)⟩
  by_cases hany : fsf.any (fun p => p.1 = "genre") = true
  · have := h2.mp hany
    obtain ⟨g, hg, hne⟩ := this
    injection hg with hg2
    exact absurd hg2.symm hne
  · exact Bool.eq_false_iff.mpr hany

/-! ### A verified model of `JSON.stringify` / `JSON.parse`

The offline queue is persisted with the JavaScript platform builtins
`JSON.stringify` and `JSON.parse` (logger.ts:211, 223).  They are
external to the repository, so they are modelled by an executable
printer/parser pair with `JSON.stringify`'s semantics for `undefined`
(object fields with an `undefined` value are skipped; an `undefined`
array element is emitted as `null`), and the round trip is proved
rather than assumed.  (The model prints the two JSON string escapes
`\"` and `\\` and passes other characters through verbatim.) -/

/-- Decimal digit to character. -/
def digitChar : Nat → Char
  | 0 => '0' | 1 => '1' | 2 => '2' | 3 => '3' | 4 => '4'
  | 5 => '5' | 6 => '6' | 7 => '7' | 8 => '8' | _ => '9'

/-- Character to decimal digit value. -/
def digitVal (c : Char) : Nat := c.toNat - 48

/-- Canonical decimal digits of a natural number (most significant
first). -/
def natChars (n : Nat) : List Char :=
  if h : n < 10 then [digitChar n]
  else natChars (n / 10) ++ [digitChar (n % 10)]
termination_by n
decreasing_by
  exact Nat.div_lt_self (by omega) (by omega)

/-- Decimal rendering of an integer. -/
def intChars (n : Int) : List Char :=
  if n < 0 then '-' :: natChars n.natAbs else natChars n.toNat

/-- Value of a digit string (most significant first). -/
def digitsVal (ds : List Char) : Nat := ds.foldl (fun a c => a * 10 + digitVal c) 0

theorem digitChar_isDigit {d : Nat} (h : d < 10) : (digitChar d).isDigit = true := by
  interval_cases d <;> decide

theorem digitVal_digitChar {d : Nat} (h : d < 10) : digitVal (digitChar d) = d := by
  interval_cases d <;> decide

theorem digitsVal_snoc (ds : List Char) (c : Char) :
    digitsVal (ds ++ [c]) = digitsVal ds * 10 + digitVal c := by
  rw [digitsVal, digitsVal, List.foldl_append]
  rfl

theorem digitsVal_go (ds : List Char) (a : Nat) :
    ds.foldl (fun a c => a * 10 + digitVal c) a =
      a * 10 ^ ds.length + digitsVal ds := by
  induction ds generalizing a with
  | nil => simp [digitsVal]
  | cons c ds ih =>
    rw [List.foldl_cons, ih]
    have hr : digitsVal (c :: ds) = digitVal c * 10 ^ ds.length + digitsVal ds := by
      rw [digitsVal, List.foldl_cons, ih]
      simp
    rw [hr, List.length_cons, pow_succ]
    ring

theorem natChars_all_digits : ∀ n, ∀ c ∈ natChars n, c.isDigit = true := by
  intro n
  induction n using Nat.strong_induction_on with
  | _ n ih =>
    intro c hc
    rw [natChars] at hc
    by_cases h : n < 10
    · rw [dif_pos h] at hc
      simp only [List.mem_singleton] at hc
      subst hc
      exact digitChar_isDigit h
    · rw [dif_neg h] at hc
      rcases List.mem_append.mp hc with h1 | h1
      · exact ih (n / 10) (Nat.div_lt_self (by omega) (by omega)) c h1
      · simp only [List.mem_singleton] at h1
        subst h1
        exact digitChar_isDigit (Nat.mod_lt _ (by omega))

theorem natChars_ne_nil (n : Nat) : natChars n ≠ [] := by
  rw [natChars]
  by_cases h : n < 10
  · rw [dif_pos h]
    simp
  · rw [dif_neg h]
    simp

theorem digitsVal_natChars : ∀ n, digitsVal (natChars n) = n := by
  intro n
  induction n using Nat.strong_induction_on with
  | _ n ih =>
    rw [natChars]
    by_cases h : n < 10
    · rw [dif_pos h]
      rw [digitsVal, List.foldl_cons]
      simp [digitVal_digitChar h, digitsVal]
    · rw [dif_neg h]
      rw [digitsVal_snoc, ih (n / 10) (Nat.div_lt_self (by omega) (by omega)),
        digitVal_digitChar (Nat.mod_lt _ (by omega))]
      omega

/-- JSON string-body escaping: `"` and `\` are escaped with a backslash,
all other characters pass through. -/
def escapeChars : List Char → List Char
  | [] => []
  | c :: cs => (if c = '"' ∨ c = '\\' then ['\\', c] else [c]) ++ escapeChars cs

/-- Parse a JSON string body up to (and consuming) the closing quote;
returns the unescaped content and the remaining input. -/
def parseStrBody : List Char → Option (List Char × List Char)
  | [] => none
  | c :: rest =>
    if c = '"' then some ([], rest)
    else if c = '\\' then
      match rest with
      | [] => none
      | e :: rest2 =>
        if e = '"' ∨ e = '\\' then
          (parseStrBody rest2).map (fun p => (e :: p.1, p.2))
        else none
    else (parseStrBody rest).map (fun p => (c :: p.1, p.2))

theorem parseStrBody_escape (s : List Char) (rest : List Char) :
    parseStrBody (escapeChars s ++ '"' :: rest) = some (s, rest) := by
  induction s with
  | nil =>
    rw [escapeChars, List.nil_append, parseStrBody.eq_def]
    simp
  | cons c cs ih =>
    rw [escapeChars]
    by_cases h : c = '"' ∨ c = '\\'
    · rw [if_pos h]
      have he : (['\\', c] ++ escapeChars cs) ++ '"' :: rest =
          '\\' :: c :: (escapeChars cs ++ '"' :: rest) := by simp
      rw [he, parseStrBody.eq_def]
      simp [h, ih]
    · rw [if_neg h]
      have hq : ¬(c = '"') := fun hc => h (Or.inl hc)
      have hb : ¬(c = '\\') := fun hc => h (Or.inr hc)
      have he : ([c] ++ escapeChars cs) ++ '"' :: rest =
          c :: (escapeChars cs ++ '"' :: rest) := by simp
      rw [he, parseStrBody.eq_def]
      simp [hq, hb, ih]

/-- Splitting a run of satisfying characters off a list whose appended
tail does not begin with one. -/
theorem takeWhile_append_run (p : Char → Bool) (ds rest : List Char)
    (hds : ∀ d ∈ ds, p d = true)
    (hrest : ∀ r rs, rest = r :: rs → p r = false) :
    (ds ++ rest).takeWhile p = ds ∧ (ds ++ rest).dropWhile p = rest := by
  induction ds with
  | nil =>
    rcases rest with _ | ⟨r, rs⟩
    · exact ⟨rfl, rfl⟩
    · have := hrest r rs rfl
      simp [List.takeWhile_cons, List.dropWhile_cons, this]
  | cons d ds ih =>
    have hd := hds d (by simp)
    have ih2 := ih (fun x hx => hds x (by simp [hx]))
    simp [List.takeWhile_cons, List.dropWhile_cons, hd, ih2.1, ih2.2]

/-- Parse a JSON number (optional minus sign, then a digit run). -/
def parseNumber : List Char → Option (Int × List Char)
  | [] => none
  | c :: rest =>
    if c = '-' then
      let ds := rest.takeWhile Char.isDigit
      if ds.isEmpty then none
      else some (-(digitsVal ds : Int), rest.dropWhile Char.isDigit)
    else
      let ds := (c :: rest).takeWhile Char.isDigit
      if ds.isEmpty then none
      else some ((digitsVal ds : Int), (c :: rest).dropWhile Char.isDigit)

/-- Side condition: `rest` does not begin with a decimal digit (vacuously true when
empty). -/
def noDigitHead (rest : List Char) : Prop :=
  ∀ r rs, rest = r :: rs → r.isDigit = false

theorem parseNumber_natChars (n : Nat) (rest : List Char) (h : noDigitHead rest) :
    parseNumber (natChars n ++ rest) = some ((n : Int), rest) := by
  have hdigits := natChars_all_digits n
  have hsplit := takeWhile_append_run Char.isDigit (natChars n) rest hdigits h
  rcases hcs : natChars n with _ | ⟨c, cs⟩
  · exact absurd hcs (natChars_ne_nil n)
  · have hc_digit : c.isDigit = true := hdigits c (by rw [hcs]; simp)
    have hcne : ¬(c = '-') := by
      intro he
      rw [he] at hc_digit
      exact absurd hc_digit (by decide)
    rw [hcs] at hsplit
    rw [List.cons_append] at hsplit
    rw [parseNumber.eq_def]
    split
    · rename_i heq
      exact absurd heq (by simp)
    · rename_i c' rest' heq
      injection heq with h1 h2
      subst h1
      subst h2
      rw [if_neg hcne]
      simp only [List.append_eq]
      simp only [hsplit.1, hsplit.2]
      rw [if_neg (by simp)]
      rw [← hcs, digitsVal_natChars]

theorem parseNumber_intChars (n : Int) (rest : List Char) (h : noDigitHead rest) :
    parseNumber (intChars n ++ rest) = some (n, rest) := by
  rw [intChars]
  by_cases hn : n < 0
  · rw [if_pos hn]
    have hdigits := natChars_all_digits n.natAbs
    have hsplit := takeWhile_append_run Char.isDigit (natChars n.natAbs) rest hdigits h
    rw [List.cons_append, parseNumber.eq_def]
    split
    · rename_i heq
      exact absurd heq (by simp)
    · rename_i c' rest' heq
      injection heq with h1 h2
      subst h1
      subst h2
      rw [if_pos rfl]
      simp only [hsplit.1, hsplit.2]
      have hne : (natChars n.natAbs).isEmpty = false := by
        rcases hx : natChars n.natAbs with _ | ⟨c, cs⟩
        · exact absurd hx (natChars_ne_nil _)
        · rfl
      rw [if_neg (by simp [hne])]
      rw [digitsVal_natChars]
      have hv : -((n.natAbs : Nat) : Int) = n := by omega
      rw [hv]
  · rw [if_neg hn]
    rw [parseNumber_natChars n.toNat rest h]
    have hv : ((n.toNat : Nat) : Int) = n := by omega
    rw [hv]

/-- Comma-join a list of character chunks. -/
def joinComma : List (List Char) → List Char
  | [] => []
  | [x] => x
  | x :: y :: xs => x ++ ',' :: joinComma (y :: xs)

/-- A JSON string literal: quote, escaped body, quote. -/
def quoteStr (s : String) : List Char := '"' :: (escapeChars s.data ++ ['"'])

/-- The printing half of the `JSON.stringify` model.  Object fields with
an `undefined` value are skipped; `undefined` itself prints as `null`
(the array-element behaviour of `JSON.stringify`; the queue is always
stringified as an array, so the top level is never `undefined`). -/
def printVal : JSValue → List Char
  | .undef => ['n', 'u', 'l', 'l']
  | .null_ => ['n', 'u', 'l', 'l']
  | .bool_ true => ['t', 'r', 'u', 'e']
  | .bool_ false => ['f', 'a', 'l', 's', 'e']
  | .num n => intChars n
  | .str s => quoteStr s
  | .arr xs => '[' :: (joinComma (xs.attach.map (fun x => printVal x.val)) ++ [']'])
  | .obj fs => '{' :: (joinComma ((fs.filter (fun p => p.2 != .undef)).attach.map
      (fun p => quoteStr p.val.1 ++ ':' :: printVal p.val.2)) ++ ['}'])
termination_by v => sizeOf v
decreasing_by
  · have := List.sizeOf_lt_of_mem x.property
    simp only [JSValue.arr.sizeOf_spec]
    omega
  · have h := List.sizeOf_lt_of_mem (List.mem_of_mem_filter p.property)
    have h2 : sizeOf p.val.2 < sizeOf p.val := by
      obtain ⟨⟨a, b⟩, hab⟩ := p
      simp only [Prod.mk.sizeOf_spec]
      omega
    simp only [JSValue.obj.sizeOf_spec]
    omega

theorem printVal_arr (xs : List JSValue) :
    printVal (.arr xs) = '[' :: (joinComma (xs.map printVal) ++ [']']) := by
  rw [printVal]
  rw [attachMapEq _ _ printVal (fun i => rfl)]

theorem printVal_obj (fs : List (String × JSValue)) :
    printVal (.obj fs) = '{' :: (joinComma ((fs.filter (fun p => p.2 != .undef)).map
      (fun p => quoteStr p.1 ++ ':' :: printVal p.2)) ++ ['}']) := by
  rw [printVal]
  exact congrArg (fun l => '{' :: (joinComma l ++ ['}']))
    (attachMapEq _ _ (fun p : String × JSValue => quoteStr p.1 ++ ':' :: printVal p.2)
      (fun i => rfl))

/-- Consume an expected literal character sequence. -/
def expectChars : List Char → List Char → Option (List Char)
  | [], cs => some cs
  | _ :: _, [] => none
  | p :: ps, c :: cs => if c = p then expectChars ps cs else none

mutual

/-- The parsing half of the `JSON.parse` model (fuel-indexed; every
self-call strictly decreases the fuel). -/
def parseVal : Nat → List Char → Option (JSValue × List Char)
  | 0, _ => none
  | _ + 1, [] => none
  | fuel + 1, c :: rest =>
    if c = 'n' then (expectChars ['u', 'l', 'l'] rest).map (fun r => (.null_, r))
    else if c = 't' then (expectChars ['r', 'u', 'e'] rest).map (fun r => (.bool_ true, r))
    else if c = 'f' then
      (expectChars ['a', 'l', 's', 'e'] rest).map (fun r => (.bool_ false, r))
    else if c = '"' then
      (parseStrBody rest).map (fun p => (.str (String.mk p.1), p.2))
    else if c = '[' then
      match rest with
      | ']' :: rest2 => some (.arr [], rest2)
      | _ => (parseElems fuel rest).map (fun p => (.arr p.1, p.2))
    else if c = '{' then
      match rest with
      | '}' :: rest2 => some (.obj [], rest2)
      | _ => (parseFieldList fuel rest).map (fun p => (.obj p.1, p.2))
    else (parseNumber (c :: rest)).map (fun p => (.num p.1, p.2))

/-- Parse one or more comma-separated array elements up to (and
consuming) the closing bracket. -/
def parseElems : Nat → List Char → Option (List JSValue × List Char)
  | 0, _ => none
  | fuel + 1, cs =>
    (parseVal fuel cs).bind (fun p =>
      match p.2 with
      | ',' :: r2 => (parseElems fuel r2).map (fun q => (p.1 :: q.1, q.2))
      | ']' :: r2 => some ([p.1], r2)
      | _ => none)

/-- Parse one or more comma-separated string-keyed fields up to (and
consuming) the closing brace. -/
def parseFieldList : Nat → List Char → Option (List (String × JSValue) × List Char)
  | 0, _ => none
  | fuel + 1, cs =>
    match cs with
    | '"' :: rest =>
      (parseStrBody rest).bind (fun kp =>
        match kp.2 with
        | ':' :: r2 =>
          (parseVal fuel r2).bind (fun vp =>
            match vp.2 with
            | ',' :: r4 =>
              (parseFieldList fuel r4).map
                (fun q => ((String.mk kp.1, vp.1) :: q.1, q.2))
            | '}' :: r4 => some ([(String.mk kp.1, vp.1)], r4)
            | _ => none)
        | _ => none)
    | _ => none

end

/-- The `JSON.parse` model: parse one value and require that the whole
input is consumed. -/
def parseJson (s : String) : Option JSValue :=
  match parseVal (s.length + 1) s.data with
  | some (v, []) => some v
  | _ => none

/-- Fuel needed to parse a printed value back: one unit per value plus
one per element/field (each loop iteration of `parseElems` /
`parseFieldList` also consumes a unit). -/
def vdepth : JSValue → Nat
  | .arr xs => (xs.attach.map (fun x => vdepth x.val)).sum + xs.length + 1
  | .obj fs => (fs.attach.map (fun p => vdepth p.val.2)).sum + fs.length + 1
  | .undef => 1
  | .null_ => 1
  | .bool_ _ => 1
  | .num _ => 1
  | .str _ => 1
termination_by v => sizeOf v
decreasing_by
  · have := List.sizeOf_lt_of_mem x.property
    simp only [JSValue.arr.sizeOf_spec]
    omega
  · have h := List.sizeOf_lt_of_mem p.property
    have h2 : sizeOf p.val.2 < sizeOf p.val := by
      obtain ⟨⟨a, b⟩, hab⟩ := p
      simp only [Prod.mk.sizeOf_spec]
      omega
    simp only [JSValue.obj.sizeOf_spec]
    omega

theorem vdepth_arr (xs : List JSValue) :
    vdepth (.arr xs) = (xs.map vdepth).sum + xs.length + 1 := by
  rw [vdepth]
  rw [attachMapEq _ _ vdepth (fun i => rfl)]

theorem vdepth_obj (fs : List (String × JSValue)) :
    vdepth (.obj fs) = (fs.map (fun p => vdepth p.2)).sum + fs.length + 1 := by
  rw [vdepth]
  exact congrArg (fun n => n + fs.length + 1)
    (congrArg List.sum
      (attachMapEq _ _ (fun p : String × JSValue => vdepth p.2) (fun i => rfl)))

theorem vdepth_pos : ∀ v, 1 ≤ vdepth v := by
  intro v
  cases v with
  | arr xs => rw [vdepth_arr]; omega
  | obj fs => rw [vdepth_obj]; omega
  | undef => rw [vdepth]
  | null_ => rw [vdepth]
  | bool_ b => rw [vdepth]
  | num n => rw [vdepth]
  | str s => rw [vdepth]

/-- The first character a printed value can start with. -/
theorem printVal_head (v : JSValue) : ∃ c t, printVal v = c :: t ∧
    (c = 'n' ∨ c = 't' ∨ c = 'f' ∨ c = '"' ∨ c = '[' ∨ c = '{' ∨ c = '-' ∨
      c.isDigit = true) := by
  cases v with
  | undef => exact ⟨'n', _, by rw [printVal], by simp⟩
  | null_ => exact ⟨'n', _, by rw [printVal], by simp⟩
  | bool_ b =>
    cases b
    · exact ⟨'f', _, by rw [printVal], by simp⟩
    · exact ⟨'t', _, by rw [printVal], by simp⟩
  | num n =>
    rw [printVal, intChars]
    by_cases hn : n < 0
    · exact ⟨'-', _, by rw [if_pos hn], by simp⟩
    · rcases hx : natChars n.toNat with _ | ⟨c, cs⟩
      · exact absurd hx (natChars_ne_nil _)
      · refine ⟨c, cs, by rw [if_neg hn], ?_⟩
        have : c.isDigit = true := natChars_all_digits _ c (by rw [hx]; simp)
        simp [this]
  | str s => exact ⟨'"', _, by rw [printVal, quoteStr], by simp⟩
  | arr xs => exact ⟨'[', _, by rw [printVal_arr], by simp⟩
  | obj fs => exact ⟨'{', _, by rw [printVal_obj], by simp⟩

theorem isDigit_not_special {c : Char} (h : c.isDigit = true) :
    ¬(c = 'n') ∧ ¬(c = 't') ∧ ¬(c = 'f') ∧ ¬(c = '"') ∧ ¬(c = '[') ∧ ¬(c = '{') ∧
      ¬(c = ']') ∧ ¬(c = '}') ∧ ¬(c = ',') ∧ ¬(c = ':') := by
  refine ⟨?_, ?_, ?_, ?_, ?_, ?_, ?_, ?_, ?_, ?_⟩ <;>
    (intro he; subst he; exact absurd h (by decide))

theorem noDigitHead_nil : noDigitHead [] := by
  intro r rs h
  exact absurd h (by simp)

theorem noDigitHead_cons {c : Char} (h : c.isDigit = false) (l : List Char) :
    noDigitHead (c :: l) := by
  intro r rs he
  injection he with h1 h2
  subst h1
  exact h

/-- A printed value never starts with a closing delimiter or
separator. -/
theorem printVal_head_ne (v : JSValue) :
    (∀ t, printVal v ≠ ']' :: t) ∧ (∀ t, printVal v ≠ '}' :: t) := by
  obtain ⟨c, t, hct, hc⟩ := printVal_head v
  constructor <;>
    (intro t' he
     rw [hct] at he
     injection he with h1 h2
     subst h1
     rcases hc with h | h | h | h | h | h | h | h <;>
       exact absurd h (by decide))

theorem joinComma_cons (a : List Char) (l : List (List Char)) :
    ∃ T, joinComma (a :: l) = a ++ T := by
  cases l with
  | nil => exact ⟨[], by rw [joinComma, List.append_nil]⟩
  | cons b bs => exact ⟨',' :: joinComma (b :: bs), by rw [joinComma]⟩

/-- Reduction of the parser at an opening bracket. -/
theorem parseVal_succ_lbracket (f : Nat) (l : List Char) :
    parseVal (f + 1) ('[' :: l) =
      (match l with
        | ']' :: rest2 => some (.arr [], rest2)
        | _ => (parseElems f l).map (fun p => (.arr p.1, p.2))) := by
  rw [parseVal.eq_def]
  simp

/-- Reduction of the parser at an opening brace. -/
theorem parseVal_succ_lbrace (f : Nat) (l : List Char) :
    parseVal (f + 1) ('{' :: l) =
      (match l with
        | '}' :: rest2 => some (.obj [], rest2)
        | _ => (parseFieldList f l).map (fun p => (.obj p.1, p.2))) := by
  rw [parseVal.eq_def]
  simp

/-- Reduction of the parser at a number start. -/
theorem parseVal_succ_num (f : Nat) (c : Char) (l : List Char)
    (h1 : ¬(c = 'n')) (h2 : ¬(c = 't')) (h3 : ¬(c = 'f')) (h4 : ¬(c = '"'))
    (h5 : ¬(c = '[')) (h6 : ¬(c = '{')) :
    parseVal (f + 1) (c :: l) =
      (parseNumber (c :: l)).map (fun p => (.num p.1, p.2)) := by
  rw [parseVal.eq_def]
  simp [h1, h2, h3, h4, h5, h6]

/-- The JSON round trip: parsing the printed form of an `undefined`-free
value (followed by any non-digit-leading continuation) returns the value
and the continuation, for any sufficient fuel. -/
theorem parseVal_print : ∀ v, noUndef v = true → ∀ fuel, vdepth v ≤ fuel →
    ∀ rest, noDigitHead rest → parseVal fuel (printVal v ++ rest) = some (v, rest) := by
  intro v
  induction v using inductionOn with
  | h1 =>
    intro h
    rw [noUndef] at h
    exact absurd h Bool.false_ne_true
  | h2 =>
    intro _ fuel hf rest _
    rw [vdepth] at hf
    obtain ⟨f, rfl⟩ : ∃ f, fuel = f + 1 := by
      rcases fuel with _ | f
      · omega
      · exact ⟨f, rfl⟩
    rw [printVal]
    simp only [List.cons_append, List.nil_append]
    rw [parseVal.eq_def]
    simp [expectChars]
  | h3 b =>
    intro _ fuel hf rest _
    rw [vdepth] at hf
    obtain ⟨f, rfl⟩ : ∃ f, fuel = f + 1 := by
      rcases fuel with _ | f
      · omega
      · exact ⟨f, rfl⟩
    cases b <;>
      (rw [printVal]
       simp only [List.cons_append, List.nil_append]
       rw [parseVal.eq_def]
       simp [expectChars])
  | h4 n =>
    intro _ fuel hf rest hrest
    rw [vdepth] at hf
    obtain ⟨f, rfl⟩ : ∃ f, fuel = f + 1 := by
      rcases fuel with _ | f
      · omega
      · exact ⟨f, rfl⟩
    rw [printVal]
    have hnum := parseNumber_intChars n rest hrest
    rw [intChars] at hnum ⊢
    by_cases hn : n < 0
    · rw [if_pos hn] at hnum ⊢
      have hnum2 : parseNumber ('-' :: (natChars n.natAbs ++ rest)) =
          some (n, rest) := hnum
      show parseVal (f + 1) ('-' :: (natChars n.natAbs ++ rest)) = some (.num n, rest)
      rw [parseVal_succ_num f '-' _ (by decide) (by decide) (by decide) (by decide)
        (by decide) (by decide)]
      rw [hnum2]
      rfl
    · rw [if_neg hn] at hnum ⊢
      rcases hx : natChars n.toNat with _ | ⟨c, cs⟩
      · exact absurd hx (natChars_ne_nil _)
      · have hcd : c.isDigit = true := natChars_all_digits _ c (by rw [hx]; simp)
        have hsp := isDigit_not_special hcd
        rw [hx] at hnum
        have hnum2 : parseNumber (c :: (cs ++ rest)) = some (n, rest) := hnum
        show parseVal (f + 1) (c :: (cs ++ rest)) = some (.num n, rest)
        rw [parseVal_succ_num f c _ hsp.1 hsp.2.1 hsp.2.2.1 hsp.2.2.2.1
          hsp.2.2.2.2.1 hsp.2.2.2.2.2.1]
        rw [hnum2]
        rfl
  | h5 s =>
    intro _ fuel hf rest _
    rw [vdepth] at hf
    obtain ⟨f, rfl⟩ : ∃ f, fuel = f + 1 := by
      rcases fuel with _ | f
      · omega
      · exact ⟨f, rfl⟩
    rw [printVal, quoteStr, List.cons_append, List.append_assoc,
      List.singleton_append]
    rw [parseVal.eq_def]
    simp only [reduceIte]
    rw [parseStrBody_escape]
    rfl
  | h6 xs ih =>
    intro hnu fuel hf rest hrest
    rw [noUndef_arr, List.all_eq_true] at hnu
    rw [vdepth_arr] at hf
    obtain ⟨f, rfl⟩ : ∃ f, fuel = f + 1 := by
      rcases fuel with _ | f
      · omega
      · exact ⟨f, rfl⟩
    rw [printVal_arr]
    rcases xs with _ | ⟨x, xs'⟩
    · simp only [List.map_nil, joinComma, List.nil_append, List.cons_append]
      rw [parseVal_succ_lbracket]
      rfl
    · have loop : ∀ (ys : List JSValue), ys ≠ [] → (∀ y ∈ ys, y ∈ x :: xs') →
          ∀ (g : Nat), (ys.map vdepth).sum + ys.length ≤ g →
          ∀ r2, noDigitHead r2 →
          parseElems g (joinComma (ys.map printVal) ++ ']' :: r2) = some (ys, r2) := by
        intro ys
        induction ys with
        | nil => intro hne; exact absurd rfl hne
        | cons y ys' ihy =>
          intro _ hmem g hg r2 hr2
          have hymem := hmem y (by simp)
          have hyd := vdepth_pos y
          obtain ⟨g', rfl⟩ : ∃ g', g = g' + 1 := by
            rcases g with _ | g'
            · simp only [List.map_cons, List.sum_cons, List.length_cons] at hg
              omega
            · exact ⟨g', rfl⟩
          rw [parseElems]
          rcases ys' with _ | ⟨z, zs⟩
          · simp only [List.map_cons, List.map_nil, joinComma]
            have hy := ih y hymem (hnu y hymem) g'
              (by simp only [List.map_cons, List.map_nil, List.sum_cons, List.sum_nil,
                List.length_cons, List.length_nil] at hg; omega)
              (']' :: r2) (noDigitHead_cons (by decide) _)
            rw [hy]
            rfl
          · simp only [List.map_cons, joinComma]
            rw [List.append_assoc, List.cons_append]
            have hy := ih y hymem (hnu y hymem) g'
              (by simp only [List.map_cons, List.sum_cons, List.length_cons] at hg; omega)
              (',' :: (joinComma (printVal z :: List.map printVal zs) ++ ']' :: r2))
              (noDigitHead_cons (by decide) _)
            rw [hy]
            have hrec := ihy (by simp) (fun w hw => hmem w (List.mem_cons_of_mem y hw))
              g' (by simp only [List.map_cons, List.sum_cons, List.length_cons] at hg ⊢; omega)
              r2 hr2
            simp only [List.map_cons] at hrec
            simp only [Option.some_bind]
            rw [hrec]
            rfl
      have hmas : (joinComma ((x :: xs').map printVal) ++ [']']) ++ rest =
          joinComma ((x :: xs').map printVal) ++ ']' :: rest := by
        rw [List.append_assoc, List.singleton_append]
      rw [List.cons_append, hmas, parseVal_succ_lbracket]
      have hloop := loop (x :: xs') (by simp) (fun y hy => hy) f
        (by simp only [List.map_cons, List.sum_cons, List.length_cons] at hf ⊢; omega)
        rest hrest
      obtain ⟨c, t, hct, hcopt⟩ := printVal_head x
      obtain ⟨T, hT⟩ := joinComma_cons (printVal x) (xs'.map printVal)
      split
      · rename_i rest2 heq
        rw [List.map_cons, hT, hct, List.cons_append, List.cons_append] at heq
        injection heq with h1 h2
        subst h1
        rcases hcopt with h | h | h | h | h | h | h | h <;> exact absurd h (by decide)
      · rw [hloop]
        rfl
  | h7 fs ih =>
    intro hnu fuel hf rest hrest
    rw [noUndef_obj, List.all_eq_true] at hnu
    rw [vdepth_obj] at hf
    obtain ⟨f, rfl⟩ : ∃ f, fuel = f + 1 := by
      rcases fuel with _ | f
      · omega
      · exact ⟨f, rfl⟩
    rw [printVal_obj]
    have hfil : fs.filter (fun p => p.2 != .undef) = fs := by
      apply List.filter_eq_self.mpr
      intro p hp
      have := noUndef_ne_undef (hnu p hp)
      simpa using this
    rw [hfil]
    rcases fs with _ | ⟨q, fs'⟩
    · simp only [List.map_nil, joinComma, List.nil_append, List.cons_append]
      rw [parseVal_succ_lbrace]
      rfl
    · have loop : ∀ (ps : List (String × JSValue)), ps ≠ [] →
          (∀ p ∈ ps, p ∈ q :: fs') →
          ∀ (g : Nat), (ps.map (fun p => vdepth p.2)).sum + ps.length ≤ g →
          ∀ r2, noDigitHead r2 →
          parseFieldList g
            (joinComma (ps.map (fun p => quoteStr p.1 ++ ':' :: printVal p.2)) ++
              '}' :: r2) = some (ps, r2) := by
        intro ps
        induction ps with
        | nil => intro hne; exact absurd rfl hne
        | cons y ys ihy =>
          intro _ hmem g hg r2 hr2
          have hymem := hmem y (by simp)
          have hyd := vdepth_pos y.2
          obtain ⟨g', rfl⟩ : ∃ g', g = g' + 1 := by
            rcases g with _ | g'
            · simp only [List.map_cons, List.sum_cons, List.length_cons] at hg
              omega
            · exact ⟨g', rfl⟩
          rcases ys with _ | ⟨z, zs⟩
          · simp only [List.map_cons, List.map_nil, joinComma]
            have hshape : (quoteStr y.1 ++ ':' :: printVal y.2) ++ '}' :: r2 =
                '"' :: (escapeChars y.1.data ++
                  '"' :: ':' :: (printVal y.2 ++ '}' :: r2)) := by
              rw [quoteStr]
              simp [List.append_assoc]
            rw [hshape, parseFieldList, parseStrBody_escape]
            simp only [Option.some_bind]
            have hy := ih y hymem (hnu y hymem) g'
              (by simp only [List.map_cons, List.map_nil, List.sum_cons, List.sum_nil,
                List.length_cons, List.length_nil] at hg; omega)
              ('}' :: r2) (noDigitHead_cons (by decide) _)
            rw [hy]
            rfl
          · simp only [List.map_cons, joinComma]
            have hshape : ((quoteStr y.1 ++ ':' :: printVal y.2) ++
                  ',' :: joinComma ((quoteStr z.1 ++ ':' :: printVal z.2) ::
                    zs.map (fun p => quoteStr p.1 ++ ':' :: printVal p.2))) ++
                  '}' :: r2 =
                '"' :: (escapeChars y.1.data ++ '"' :: ':' :: (printVal y.2 ++
                  ',' :: (joinComma ((quoteStr z.1 ++ ':' :: printVal z.2) ::
                    zs.map (fun p => quoteStr p.1 ++ ':' :: printVal p.2)) ++
                    '}' :: r2))) := by
              rw [quoteStr]
              simp [List.append_assoc]
            rw [hshape, parseFieldList, parseStrBody_escape]
            simp only [Option.some_bind]
            have hy := ih y hymem (hnu y hymem) g'
              (by simp only [List.map_cons, List.sum_cons, List.length_cons] at hg; omega)
              (',' :: (joinComma ((quoteStr z.1 ++ ':' :: printVal z.2) ::
                zs.map (fun p => quoteStr p.1 ++ ':' :: printVal p.2)) ++ '}' :: r2))
              (noDigitHead_cons (by decide) _)
            rw [hy]
            simp only [Option.some_bind]
            have hrec := ihy (by simp) (fun w hw => hmem w (List.mem_cons_of_mem y hw))
              g' (by simp only [List.map_cons, List.sum_cons, List.length_cons] at hg ⊢; omega)
              r2 hr2
            simp only [List.map_cons] at hrec
            rw [hrec]
            rfl
      have hmas : (joinComma ((q :: fs').map
              (fun p => quoteStr p.1 ++ ':' :: printVal p.2)) ++ ['}']) ++ rest =
          joinComma ((q :: fs').map (fun p => quoteStr p.1 ++ ':' :: printVal p.2)) ++
            '}' :: rest := by
        rw [List.append_assoc, List.singleton_append]
      rw [List.cons_append, hmas, parseVal_succ_lbrace]
      have hloop := loop (q :: fs') (by simp) (fun p hp => hp) f
        (by simp only [List.map_cons, List.sum_cons, List.length_cons] at hf ⊢; omega)
        rest hrest
      obtain ⟨T, hT⟩ := joinComma_cons (quoteStr q.1 ++ ':' :: printVal q.2)
        (fs'.map (fun p => quoteStr p.1 ++ ':' :: printVal p.2))
      split
      · rename_i rest2 heq
        rw [List.map_cons, hT, quoteStr, List.cons_append, List.cons_append] at heq
        injection heq with h1 h2
        exact absurd h1 (by decide)
      · rw [hloop]
        rfl

theorem joinComma_length_ge (l : List (List Char)) :
    (l.map List.length).sum + l.length ≤ (joinComma l).length + 1 := by
  induction l with
  | nil => simp [joinComma]
  | cons x ys ih =>
    rcases ys with _ | ⟨y, zs⟩
    · simp [joinComma]
    · rw [joinComma]
      simp only [List.map_cons, List.sum_cons, List.length_cons,
        List.length_append] at ih ⊢
      omega

theorem natChars_length_pos (n : Nat) : 1 ≤ (natChars n).length := by
  rcases hx : natChars n with _ | ⟨c, cs⟩
  · exact absurd hx (natChars_ne_nil n)
  · simp

/-- Parsing fuel is covered by the printed length (for
`undefined`-free values). -/
theorem vdepth_le_printLen : ∀ v, noUndef v = true →
    vdepth v ≤ (printVal v).length := by
  intro v
  induction v using inductionOn with
  | h1 => intro h; rw [noUndef] at h; exact absurd h Bool.false_ne_true
  | h2 => intro _; rw [vdepth, printVal]; simp
  | h3 b => intro _; cases b <;> (rw [vdepth, printVal]; simp)
  | h4 n =>
    intro _
    rw [vdepth, printVal, intChars]
    by_cases hn : n < 0
    · rw [if_pos hn]
      have := natChars_length_pos n.natAbs
      simp only [List.length_cons]
      omega
    · rw [if_neg hn]
      exact natChars_length_pos n.toNat
  | h5 s =>
    intro _
    rw [vdepth, printVal, quoteStr]
    simp
  | h6 xs ih =>
    intro hnu
    rw [noUndef_arr, List.all_eq_true] at hnu
    rw [vdepth_arr, printVal_arr]
    have hj := joinComma_length_ge (xs.map printVal)
    have hsum : (xs.map vdepth).sum ≤ ((xs.map printVal).map List.length).sum := by
      rw [List.map_map]
      apply List.sum_le_sum
      intro x hx
      exact ih x hx (hnu x hx)
    simp only [List.length_map] at hj
    simp only [List.length_cons, List.length_append, List.length_singleton]
    omega
  | h7 fs ih =>
    intro hnu
    rw [noUndef_obj, List.all_eq_true] at hnu
    rw [vdepth_obj, printVal_obj]
    have hfil : fs.filter (fun p => p.2 != .undef) = fs := by
      apply List.filter_eq_self.mpr
      intro p hp
      have := noUndef_ne_undef (hnu p hp)
      simpa using this
    rw [hfil]
    have hj := joinComma_length_ge (fs.map (fun p => quoteStr p.1 ++ ':' :: printVal p.2))
    have hsum : (fs.map (fun p => vdepth p.2)).sum ≤
        ((fs.map (fun p => quoteStr p.1 ++ ':' :: printVal p.2)).map List.length).sum := by
      rw [List.map_map]
      apply List.sum_le_sum
      intro p hp
      have h1 := ih p hp (hnu p hp)
      simp only [Function.comp_apply, List.length_append, List.length_cons]
      omega
    simp only [List.length_map] at hj
    simp only [List.length_cons, List.length_append, List.length_singleton]
    omega

/-- Round trip: `JSON.parse ∘ JSON.stringify` is the identity on `undefined`-free
values. -/
theorem parseJson_print (v : JSValue) (h : noUndef v = true) :
    parseJson (String.mk (printVal v)) = some v := by
  rw [parseJson]
  have hdata : (String.mk (printVal v)).data = printVal v := rfl
  have hlen : (String.mk (printVal v)).length = (printVal v).length := rfl
  rw [hdata, hlen]
  have hp := parseVal_print v h ((printVal v).length + 1)
    (le_trans (vdepth_le_printLen v h) (Nat.le_succ _)) [] noDigitHead_nil
  rw [List.append_nil] at hp
  rw [hp]

/-! ### The offline queue and its persistence (claim C6) -/

/-- One pending-queue entry, `{ logEntry, userId }` (logger.ts:145). -/
structure QueueEntry where
  logEntry : JSValue
  userId : Option String
deriving DecidableEq

/-- The JSON shape of a queue entry.  The source pushes
`{ logEntry, userId }` (logger.ts:308); when `userId` is `undefined`,
`JSON.stringify` drops the key, which is composed into this encoder (the
printer would drop an `undef`-valued field anyway). -/
def encodeEntry (e : QueueEntry) : JSValue :=
  .obj ([("logEntry", e.logEntry)] ++
    (match e.userId with
     | some u => [("userId", .str u)]
     | none => []))

/-- Reading an entry back from parsed JSON: the destructuring
`const { logEntry, userId: logUserId }` of `processPendingLogs`
(logger.ts:241), with a missing or non-string `userId` read as absent. -/
def decodeEntry (v : JSValue) : QueueEntry :=
  ⟨v.getField "logEntry",
   match v.getField "userId" with
   | .str u => some u
   | _ => none⟩

/-- The method `Logger.savePendingLogs` (logger.ts:220-228):
`localStorage.setItem("pendingLogs", JSON.stringify(this.pendingLogs))`.
The storage cell is modelled as reliable (the source's `try`/`catch`
around `setItem` guards a quota failure the pure model does not have). -/
def savePendingLogsStr (q : List QueueEntry) : String :=
  String.mk (printVal (.arr (q.map encodeEntry)))

/-- The method `Logger.loadPendingLogs` (logger.ts:206-217): if the stored string
exists and parses, the in-memory queue is replaced with the parsed
contents; a parse failure is swallowed, keeping the current (initially
empty) queue.  The result is `none` in the one state the typed model
cannot represent — a stored string that parses to something other than
an array (the source would assign that ill-typed value as-is); it never
arises for self-persisted data. -/
def loadPendingLogs (stored : Option String) (current : List QueueEntry) :
    Option (List QueueEntry) :=
  match stored with
  | none => some current
  | some s =>
    match parseJson s with
    | none => some current
    | some (.arr xs) => some (xs.map decodeEntry)
    | some _ => none

theorem noUndef_encodeEntry (e : QueueEntry) (h : noUndef e.logEntry = true) :
    noUndef (encodeEntry e) = true := by
  rw [encodeEntry, noUndef_obj]
  rcases e.userId with _ | u <;> simp [h, noUndef]

theorem decodeEntry_encodeEntry (e : QueueEntry) :
    decodeEntry (encodeEntry e) = e := by
  obtain ⟨le, uid⟩ := e
  rw [encodeEntry, decodeEntry]
  rcases uid with _ | u <;>
    simp [JSValue.getField, List.find?_cons]

/-- Claim **C6**: persisting the queue and reloading it into a fresh in-memory
state yields the same entries in the same order (entries whose record
carries no absent-valued field — the spec-level reading of a record,
since serialization drops such fields); a missing or unparseable
persisted queue yields the current (initially empty) queue without
raising. -/
theorem claim6_queue_roundtrip :
    (∀ q : List QueueEntry, (∀ e ∈ q, noUndef e.logEntry = true) →
      loadPendingLogs (some (savePendingLogsStr q)) [] = some q) ∧
    (∀ current, loadPendingLogs none current = some current) ∧
    (∀ s current, parseJson s = none →
      loadPendingLogs (some s) current = some current) := by
  refine ⟨?_, fun current => rfl, ?_⟩
  · intro q hq
    rw [savePendingLogsStr, loadPendingLogs]
    have hnu : noUndef (.arr (q.map encodeEntry)) = true := by
      rw [noUndef_arr, List.all_eq_true]
      intro x hx
      obtain ⟨e, he, rfl⟩ := List.mem_map.mp hx
      exact noUndef_encodeEntry e (hq e he)
    rw [parseJson_print _ hnu]
    show some ((q.map encodeEntry).map decodeEntry) = some q
    congr 1
    rw [List.map_map]
    have : q.map (decodeEntry ∘ encodeEntry) = q.map id :=
      List.map_congr_left (fun e _ => decodeEntry_encodeEntry e)
    rw [this, List.map_id]
  · intro s current h
    rw [loadPendingLogs, h]

/-- Claim **C6** witness: a concrete two-entry queue (one entry with a stored
identifier, one without) round trips, and the empty/unparseable cases
load as empty. -/
theorem claim6_witness :
    loadPendingLogs (some (savePendingLogsStr
      [⟨.obj [("type", .str "login"), ("success", .bool_ false)], none⟩,
       ⟨.obj [("type", .str "book_view"), ("bookId", .str "b1")], some "u1"⟩])) [] =
      some [⟨.obj [("type", .str "login"), ("success", .bool_ false)], none⟩,
        ⟨.obj [("type", .str "book_view"), ("bookId", .str "b1")], some "u1"⟩] ∧
    loadPendingLogs none [] = some [] ∧
    loadPendingLogs (some "not json") [] = some [] := by
  refine ⟨?_, claim6_queue_roundtrip.2.1 [], ?_⟩
  · apply claim6_queue_roundtrip.1
    intro e he
    rcases List.mem_cons.mp he with rfl | he2
    · rw [noUndef_obj]
      simp [noUndef]
    · simp only [List.mem_singleton] at he2
      rw [he2]
      rw [noUndef_obj]
      simp [noUndef]
  · apply claim6_queue_roundtrip.2.2
    rw [parseJson]
    rfl

/-! ### The write pipeline and queue replay (claims C4, C5, C7) -/

/-- A JavaScript error value as observed by the catch handler:
whether it satisfies `instanceof Error`, and its `message` text. -/
structure JSError where
  isError : Bool
  message : String
deriving DecidableEq

/-- The outcome of the remote `addDoc` append (an external effect,
passed to the model as an oracle). -/
inductive WriteOutcome where
  | success
  | failure (e : JSError)
deriving DecidableEq

/-- The mutable instance state of `Logger` used by the write pipeline
and the queue (logger.ts:143-148), plus the `localStorage` cell backing
`"pendingLogs"`. -/
structure LoggerState where
  sessionId : String
  pendingLogs : List QueueEntry
  storage : Option String
  isProcessingPendingLogs : Bool
deriving DecidableEq

/-- Observable events of a pipeline run.  `diag` models `console.error`
(the diagnostic stream); the purely informational `console.log` traces
are not modelled.  `invokeWrite` marks a call-site invocation of the
write pipeline by `processPendingLogs`. -/
inductive TraceEvent where
  | attemptAppend (path : String) (doc : JSValue)
  | enqueued (e : QueueEntry)
  | persisted (q : List QueueEntry)
  | diag (msg : String)
  | invokeWrite (logEntry : JSValue) (userId : Option String) (allowQueue : Bool)
deriving DecidableEq

/-- Whether `small` occurs at the start of `big`. -/
def leadsWith : List Char → List Char → Bool
  | [], _ => true
  | _ :: _, [] => false
  | a :: as, b :: bs => a = b && leadsWith as bs

/-- Whether `needle` occurs as a contiguous run inside the character
list. -/
def hasSubstrChars (needle : List Char) : List Char → Bool
  | [] => leadsWith needle []
  | c :: cs => leadsWith needle (c :: cs) || hasSubstrChars needle cs

/-- The JavaScript string test `hay.includes(needle)`. -/
def containsStr (hay needle : String) : Bool := hasSubstrChars needle.data hay.data

/-- The authorization-shaped-failure test of the catch handler
(logger.ts:302-306): `error instanceof Error` and the message text
mentions "permission" or "unauthorized". -/
def permissionShaped (e : JSError) : Bool :=
  e.isError && (containsStr e.message "permission" || containsStr e.message "unauthorized")

/-- The stamping step (logger.ts:259-265): object spread of the record
followed by the overriding keys, which replaces an existing key in place
and appends a new one. -/
def stampRecord (logEntry : JSValue) (sessionId ua ip : String) : JSValue :=
  (((logEntry.setField "timestamp" serverTimestampPlaceholder).setField
    "sessionId" (.str sessionId)).setField
    "userAgent" (.str ua)).setField "ipAddress" (.str ip)

/-- The method `Logger.writeLog` (logger.ts:252-316) as a state transformer.
External effects are oracle inputs: `inBrowser` is the
`typeof window === "undefined"` test, `ua`/`ip` the client-info probe's
result, `outcome` the remote append's fate.  Every exception path of the
source is caught inside the method (the inner catch handles the append,
the outer one everything else, and `savePendingLogs` swallows storage
failures), so the model is a total function — the pipeline never raises
to its caller. -/
def writeLog (st : LoggerState) (inBrowser : Bool) (ua ip : String)
    (logEntry : JSValue) (userId : Option String) (allowQueue : Bool)
    (outcome : WriteOutcome) : LoggerState × List TraceEvent :=
  if !inBrowser then (st, [])
  else
    let logData0 := stampRecord logEntry st.sessionId ua ip
    let resolved := resolveUserId userId logEntry
    let logData := if resolved.jsTruthy then logData0.setField "userId" resolved
      else logData0
    let collectionPath :=
      collectionPathFor (logEntry.getField "type") (logData.getField "userId")
    let cleanedLogData := cleanUndefinedValues logData
    match outcome with
    | .success => (st, [.attemptAppend collectionPath cleanedLogData])
    | .failure e =>
      if allowQueue && permissionShaped e then
        let entry : QueueEntry := ⟨logEntry, userId⟩
        let newQueue := st.pendingLogs ++ [entry]
        let st2 : LoggerState :=
          { st with pendingLogs := newQueue, storage := some (savePendingLogsStr newQueue) }
        (st2,
         [.attemptAppend collectionPath cleanedLogData,
          .diag ("Failed to write log to " ++ collectionPath),
          .enqueued entry, .persisted newQueue])
      else
        (st, [.attemptAppend collectionPath cleanedLogData,
          .diag ("Failed to write log to " ++ collectionPath)])

/-- The `for` loop of `processPendingLogs` (logger.ts:241-244): each
snapshotted entry is handed to `writeLog` with queueing disabled, using
the entry's stored identifier when truthy, else the `userId` argument. -/
def processLoop (inBrowser : Bool) (ua ip userId : String) :
    LoggerState → List QueueEntry → Nat → (Nat → WriteOutcome) →
      LoggerState × List TraceEvent
  | st, [], _, _ => (st, [])
  | st, e :: es, i, outcomes =>
    let arg := some (strOrD e.userId userId)
    let r1 := writeLog st inBrowser ua ip e.logEntry arg false (outcomes i)
    let r2 := processLoop inBrowser ua ip userId r1.1 es (i + 1) outcomes
    (r2.1, .invokeWrite e.logEntry arg false :: (r1.2 ++ r2.2))

/-- The method `Logger.processPendingLogs` (logger.ts:231-250): a no-op when the
single-flight flag is set; otherwise it snapshots and clears the queue,
persists the now-empty queue, replays every snapshotted entry through
the pipeline in order, and finally clears the flag. -/
def processPendingLogs (st : LoggerState) (inBrowser : Bool) (ua ip : String)
    (userId : String) (outcomes : Nat → WriteOutcome) :
    LoggerState × List TraceEvent :=
  if st.isProcessingPendingLogs then (st, [])
  else
    let logs := st.pendingLogs
    let st1 : LoggerState :=
      { st with isProcessingPendingLogs := true, pendingLogs := [], storage := some (savePendingLogsStr []) }
    let r := processLoop inBrowser ua ip userId st1 logs 0 outcomes
    ({r.1 with isProcessingPendingLogs := false}, .persisted [] :: r.2)

/-- The write-pipeline invocations recorded in a trace. -/
def invokesOf (tr : List TraceEvent) : List (JSValue × Option String × Bool) :=
  tr.filterMap (fun ev => match ev with
    | .invokeWrite le uid aq => some (le, uid, aq)
    | _ => none)

theorem writeLog_state_no_queue (st : LoggerState) (ib : Bool) (ua ip : String)
    (le : JSValue) (uid : Option String) (outcome : WriteOutcome) :
    (writeLog st ib ua ip le uid false outcome).1 = st := by
  rw [writeLog]
  rcases ib with _ | _
  · rfl
  · rcases outcome with _ | e
    · rfl
    · simp

theorem invokesOf_writeLog (st : LoggerState) (ib : Bool) (ua ip : String)
    (le : JSValue) (uid : Option String) (aq : Bool) (outcome : WriteOutcome) :
    invokesOf (writeLog st ib ua ip le uid aq outcome).2 = [] := by
  rw [writeLog]
  rcases ib with _ | _
  · rfl
  · rcases outcome with _ | e
    · rfl
    · by_cases h : (aq && permissionShaped e) = true
      · simp only [Bool.not_true, Bool.false_eq_true, if_false, h, if_true]
        rfl
      · simp only [Bool.not_true, Bool.false_eq_true, if_false,
          Bool.not_eq_true] at h ⊢
        rw [if_neg (by simp [h])]
        rfl

theorem processLoop_state (ib : Bool) (ua ip userId : String) :
    ∀ (es : List QueueEntry) (st : LoggerState) (i : Nat)
      (outcomes : Nat → WriteOutcome),
      (processLoop ib ua ip userId st es i outcomes).1 = st := by
  intro es
  induction es with
  | nil => intro st i outcomes; rfl
  | cons e es ih =>
    intro st i outcomes
    rw [processLoop]
    simp only
    rw [ih, writeLog_state_no_queue]

theorem processLoop_invokes (ib : Bool) (ua ip userId : String) :
    ∀ (es : List QueueEntry) (st : LoggerState) (i : Nat)
      (outcomes : Nat → WriteOutcome),
      invokesOf (processLoop ib ua ip userId st es i outcomes).2 =
        es.map (fun e => (e.logEntry, some (strOrD e.userId userId), false)) := by
  intro es
  induction es with
  | nil => intro st i outcomes; rfl
  | cons e es ih =>
    intro st i outcomes
    rw [processLoop]
    simp only [invokesOf, List.filterMap_cons, List.filterMap_append]
    have h1 := invokesOf_writeLog st ib ua ip e.logEntry
      (some (strOrD e.userId userId)) false (outcomes i)
    rw [invokesOf] at h1
    rw [h1]
    have h2 := ih (writeLog st ib ua ip e.logEntry
      (some (strOrD e.userId userId)) false (outcomes i)).1 (i + 1) outcomes
    rw [invokesOf] at h2
    rw [h2]
    simp

/-- Claim **C4**: a non-reentrant `processPendingLogs` call clears the
in-memory queue and persists the now-empty queue as its first observable
action (before any write), hands every snapshotted entry to the write
pipeline exactly once, in original enqueue order, with queueing
disabled, using the entry's stored identifier when present (truthy) and
the `userId` argument otherwise; afterwards the persisted queue is empty
and the single-flight flag is clear. -/
theorem claim4_replay :
    ∀ (st : LoggerState) (ib : Bool) (ua ip userId : String)
      (outcomes : Nat → WriteOutcome),
      st.isProcessingPendingLogs = false →
      (processPendingLogs st ib ua ip userId outcomes).1.pendingLogs = [] ∧
      (processPendingLogs st ib ua ip userId outcomes).1.storage =
        some (savePendingLogsStr []) ∧
      (processPendingLogs st ib ua ip userId outcomes).1.isProcessingPendingLogs =
        false ∧
      (processPendingLogs st ib ua ip userId outcomes).2.head? =
        some (.persisted []) ∧
      invokesOf (processPendingLogs st ib ua ip userId outcomes).2 =
        st.pendingLogs.map
          (fun e => (e.logEntry, some (strOrD e.userId userId), false)) := by
  intro st ib ua ip userId outcomes h
  rw [processPendingLogs, if_neg (by rw [h]; exact Bool.false_ne_true)]
  simp only
  rw [processLoop_state]
  refine ⟨by simp, by simp, by simp, by simp, ?_⟩
  simp only [invokesOf, List.filterMap_cons]
  have h2 := processLoop_invokes ib ua ip userId st.pendingLogs
    { st with isProcessingPendingLogs := true, pendingLogs := [], storage := some (savePendingLogsStr []) } 0 outcomes
  rw [invokesOf] at h2
  rw [h2]

/-- Claim **C4** witness: a concrete two-entry queue (one entry with a stored
identifier, one without) replayed with the supplied identifier. -/
theorem claim4_witness :
    (processPendingLogs
      ⟨"s1", [⟨.obj [("type", .str "page_view")], none⟩,
              ⟨.obj [("type", .str "book_view")], some "u1"⟩],
        some "old", false⟩ true "UA" "ip" "u9" (fun _ => .success)).1.pendingLogs =
      [] ∧
    invokesOf (processPendingLogs
      ⟨"s1", [⟨.obj [("type", .str "page_view")], none⟩,
              ⟨.obj [("type", .str "book_view")], some "u1"⟩],
        some "old", false⟩ true "UA" "ip" "u9" (fun _ => .success)).2 =
      [(.obj [("type", .str "page_view")], some "u9", false),
       (.obj [("type", .str "book_view")], some "u1", false)] := by
  have h := claim4_replay
    ⟨"s1", [⟨.obj [("type", .str "page_view")], none⟩,
            ⟨.obj [("type", .str "book_view")], some "u1"⟩],
      some "old", false⟩ true "UA" "ip" "u9" (fun _ => .success) rfl
  refine ⟨h.1, ?_⟩
  rw [h.2.2.2.2]
  simp [strOrD]

/-- Claim **C5**: a re-entrant `processPendingLogs` call while the
single-flight flag is set is a no-op — the state is unchanged and no
trace events (in particular no write-pipeline invocations) are
produced; the second caller returns immediately rather than waiting. -/
theorem claim5_single_flight :
    ∀ (st : LoggerState) (ib : Bool) (ua ip userId : String)
      (outcomes : Nat → WriteOutcome),
      st.isProcessingPendingLogs = true →
      processPendingLogs st ib ua ip userId outcomes = (st, []) := by
  intro st ib ua ip userId outcomes h
  rw [processPendingLogs, if_pos h]

/-- Claim **C5** witness: a concrete busy state with a pending entry. -/
theorem claim5_witness :
    processPendingLogs
      ⟨"s1", [⟨.obj [("type", .str "page_view")], none⟩], some "x", true⟩
      true "UA" "ip" "u9" (fun _ => .success) =
      (⟨"s1", [⟨.obj [("type", .str "page_view")], none⟩], some "x", true⟩, []) :=
  claim5_single_flight _ true "UA" "ip" "u9" (fun _ => .success) rfl

/-- Claim **C7** (amended).  In a browser context `writeLog` returns normally
for every outcome (it is a total state transformer — every exception
path of the source is caught): on success the state is unchanged; on a
failure whose error is an `Error` whose text indicates a
permission/authorization denial, with queueing allowed, exactly one
`QueueEntry` built from the original pre-stamp record and the
*caller-supplied identifier argument* (not the resolved identifier — see
the counterexample) is appended to the pending queue and the queue is
persisted; on any other failure, or when queueing is disallowed, a
diagnostic is emitted and the state (in particular the queue) is left
unchanged. -/
theorem claim7_writeLog_amended :
    ∀ (st : LoggerState) (ua ip : String) (logEntry : JSValue)
      (userId : Option String) (allowQueue : Bool) (e : JSError),
      ((writeLog st true ua ip logEntry userId allowQueue .success).1 = st) ∧
      (allowQueue = true → permissionShaped e = true →
        (writeLog st true ua ip logEntry userId allowQueue (.failure e)).1.pendingLogs =
          st.pendingLogs ++ [⟨logEntry, userId⟩] ∧
        (writeLog st true ua ip logEntry userId allowQueue (.failure e)).1.storage =
          some (savePendingLogsStr (st.pendingLogs ++ [⟨logEntry, userId⟩])) ∧
        TraceEvent.enqueued ⟨logEntry, userId⟩ ∈
          (writeLog st true ua ip logEntry userId allowQueue (.failure e)).2) ∧
      (allowQueue = false ∨ permissionShaped e = false →
        (writeLog st true ua ip logEntry userId allowQueue (.failure e)).1 = st ∧
        ∃ msg, TraceEvent.diag msg ∈
          (writeLog st true ua ip logEntry userId allowQueue (.failure e)).2) := by
  intro st ua ip logEntry userId allowQueue e
  refine ⟨by rw [writeLog]; rfl, ?_, ?_⟩
  · intro ha hp
    rw [writeLog]
    simp only [Bool.not_true, Bool.false_eq_true, if_false, ha, hp,
      Bool.and_self, if_true]
    refine ⟨?_, ?_, ?_⟩ <;> simp
  · intro h
    rw [writeLog]
    have hand : (allowQueue && permissionShaped e) = false := by
      rcases h with h | h <;> simp [h]
    simp only [Bool.not_true, Bool.false_eq_true, if_false, hand]
    refine ⟨by simp, ?_⟩
    exact ⟨_, List.mem_cons_of_mem _ (List.mem_cons_self _ _)⟩

/-- Claim **C7** counterexample: the claim says the enqueued entry carries the
*resolved* acting-user identifier.  With no explicit identifier argument
and a record that embeds `userId: "u1"`, the resolved identifier is
`"u1"`, but the enqueued entry stores the absent argument instead. -/
theorem claim7_counterexample :
    (writeLog ⟨"s1", [], none, false⟩ true "UA" "ip"
        (.obj [("type", .str "book_view"), ("userId", .str "u1")]) none true
        (.failure ⟨true, "Missing or insufficient permissions."⟩)).1.pendingLogs =
      [⟨.obj [("type", .str "book_view"), ("userId", .str "u1")], none⟩] ∧
    resolveUserId none (.obj [("type", .str "book_view"), ("userId", .str "u1")]) =
      .str "u1" ∧
    (⟨.obj [("type", .str "book_view"), ("userId", .str "u1")], none⟩ : QueueEntry) ≠
      ⟨.obj [("type", .str "book_view"), ("userId", .str "u1")], some "u1"⟩ := by
  refine ⟨?_, by rfl, by simp⟩
  have h := (claim7_writeLog_amended ⟨"s1", [], none, false⟩ "UA" "ip"
    (.obj [("type", .str "book_view"), ("userId", .str "u1")]) none true
    ⟨true, "Missing or insufficient permissions."⟩).2.1 rfl (by decide)
  rw [h.1]
  rfl

/-- Claim **C7** witness: the amended theorem applied at concrete inputs — a
successful write leaves the state unchanged, a permission-shaped failure
with queueing allowed enqueues and persists, and a non-permission
failure leaves the queue unchanged. -/
theorem claim7_witness :
    ((writeLog ⟨"s1", [], none, false⟩ true "UA" "ip"
        (.obj [("type", .str "login")]) (some "u1") true .success).1 =
      ⟨"s1", [], none, false⟩) ∧
    ((writeLog ⟨"s1", [], none, false⟩ true "UA" "ip"
        (.obj [("type", .str "login")]) (some "u1") true
        (.failure ⟨true, "unauthorized"⟩)).1.pendingLogs =
      [⟨.obj [("type", .str "login")], some "u1"⟩]) ∧
    ((writeLog ⟨"s1", [], none, false⟩ true "UA" "ip"
        (.obj [("type", .str "login")]) (some "u1") true
        (.failure ⟨true, "network down"⟩)).1 = ⟨"s1", [], none, false⟩) := by
  refine ⟨(claim7_writeLog_amended _ "UA" "ip" _ (some "u1") true
    ⟨true, "unauthorized"⟩).1, ?_, ?_⟩
  · have h := (claim7_writeLog_amended ⟨"s1", [], none, false⟩ "UA" "ip"
      (.obj [("type", .str "login")]) (some "u1") true
      ⟨true, "unauthorized"⟩).2.1 rfl (by decide)
    rw [h.1]
    rfl
  · exact ((claim7_writeLog_amended ⟨"s1", [], none, false⟩ "UA" "ip"
      (.obj [("type", .str "login")]) (some "u1") true
      ⟨true, "network down"⟩).2.2 (Or.inr (by decide))).1

end LmsLogger
